import Mathlib

/-!
Shallow embedding of the PiPlane tracker's roster / new-arrival engine.

The definitions below translate, function by function, the monitoring core of
`src/services/monitor_service.py` (class `PiPlaneMonitorService`) and, for the
refinement claim, the older `src/monitor.py` (`check_for_new_aircraft`).
Wall-clock time is modelled by an explicit `now : Nat` (seconds) passed to each
poll cycle; Python's `datetime.now()` calls within one cycle all observe it.
Python exceptions raised by the data-shape-sensitive code (`.strip()` on a
non-string JSON value) are modelled with `Except`.
-/

namespace PiPlane

/-- Whitespace characters stripped by Python's `str.strip()`. -/
def isPyWS (c : Char) : Bool :=
  c == ' ' || c == '\t' || c == '\n' || c == '\r' || c == '\x0b' || c == '\x0c'

/-- Python's `str.strip()`: drop leading and trailing whitespace. -/
def pystrip (s : String) : String :=
  ⟨((s.data.dropWhile isPyWS).reverse.dropWhile isPyWS).reverse⟩

/-- A JSON value that may sit in the `flight` field of a snapshot entry:
a string, a number, or `null`.  Only strings support `.strip()`. -/
inductive JVal where
  | str (s : String)
  | num (n : Int)
  | null
deriving DecidableEq

/-- One entry of the `aircraft` array of a dump1090 snapshot.  Every field the
monitor touches is optional, mirroring `dict.get`. -/
structure AircraftEntry where
  hex : Option String
  flight : Option JVal
  lat : Option Int
  lon : Option Int
deriving DecidableEq

/-- Python truthiness of `aircraft.get("hex")`: present and non-empty. -/
def truthyHex (a : AircraftEntry) : Bool :=
  match a.hex with
  | some s => !(s == "")
  | none => false

/-- The hex key used to index the roster (meaningful when `truthyHex`). -/
def hexKey (a : AircraftEntry) : String := a.hex.getD ""

/-- The hex code as collected by set comprehensions of the form
`{a.get("hex") for a in ... if a.get("hex")}`. -/
def truthyHexOf (a : AircraftEntry) : Option String :=
  match a.hex with
  | some s => if s == "" then none else some s
  | none => none

/-- `aircraft.get("flight", "").strip()`.  Raises (models `AttributeError`)
when the `flight` field holds a non-string JSON value. -/
def stripFlight (a : AircraftEntry) : Except String String :=
  match a.flight.getD (.str "") with
  | .str s => .ok (pystrip s)
  | _ => .error "AttributeError: strip is not defined on this value"

/-- `_is_valid_aircraft`: the stripped flight string is non-empty. -/
def is_valid_aircraft (a : AircraftEntry) : Except String Bool := do
  let f ← stripFlight a
  return !(f == "")

/-- Python truthiness of `aircraft.get("lat")` / `aircraft.get("lon")`. -/
def truthyNum (o : Option Int) : Bool :=
  match o with
  | some v => !(v == 0)
  | none => false

/-- A tracked-aircraft record of `self.aircraft_history`. -/
structure AircraftInfo where
  first_seen : Nat
  last_seen : Nat
  flight : String
  positions : List (Int × Int × Nat)
deriving DecidableEq

/-- The roster: an insertion-ordered dict from hex code to record. -/
abbrev History := List (String × AircraftInfo)

/-- Dict key membership. -/
def History.containsKey (h : History) (k : String) : Bool :=
  h.any (fun p => p.1 == k)

/-- Dict read. -/
def History.lookup (h : History) (k : String) : Option AircraftInfo :=
  (h.find? (fun p => p.1 == k)).map (·.2)

/-- Dict write: replace in place when the key exists, else append. -/
def History.set : History → String → AircraftInfo → History
  | [], k, v => [(k, v)]
  | p :: rest, k, v => if p.1 == k then (k, v) :: rest else p :: History.set rest k v

/-- The dict's key list. -/
def History.keys (h : History) : List String := h.map (·.1)

/-- The position sample appended when both coordinates are truthy. -/
def newPositions (now : Nat) (a : AircraftEntry) : List (Int × Int × Nat) :=
  if truthyNum a.lat && truthyNum a.lon then [(a.lat.getD 0, a.lon.getD 0, now)]
  else []

/-- `_create_aircraft_info`: insert a fresh record for a new aircraft. -/
def create_aircraft_info (now : Nat) (h : History) (a : AircraftEntry) :
    Except String History :=
  if truthyHex a = false then .ok h
  else do
    let f ← stripFlight a
    return h.set (hexKey a) ⟨now, now, f, newPositions now a⟩

/-- `_update_aircraft_info`: refresh `last_seen` and append a position for an
aircraft already in the roster. -/
def update_aircraft_info (now : Nat) (h : History) (a : AircraftEntry) : History :=
  if truthyHex a = false then h
  else
    match h.lookup (hexKey a) with
    | none => h
    | some info =>
        h.set (hexKey a)
          { info with last_seen := now, positions := info.positions ++ newPositions now a }

/-- The parsed snapshot dict; `aircraft = none` models a dict without the
`aircraft` key. -/
structure RawData where
  aircraft : Option (List AircraftEntry)
deriving DecidableEq

/-- The classification scan of `_get_new_and_existing_aircrafts` over the
entry list: skip entries with a falsy hex, skip (or raise on) invalid
flights, then partition by roster membership. -/
def classify_list (h : History) :
    List AircraftEntry → Except String (List AircraftEntry × List AircraftEntry)
  | [] => .ok ([], [])
  | a :: rest =>
    if truthyHex a = false then classify_list h rest
    else do
      let valid ← is_valid_aircraft a
      if valid = false then classify_list h rest
      else do
        let (ns, es) ← classify_list h rest
        if h.containsKey (hexKey a) then return (ns, a :: es)
        else return (a :: ns, es)

/-- `_get_new_and_existing_aircrafts`. -/
def get_new_and_existing_aircrafts (h : History) (d : RawData) :
    Except String (List AircraftEntry × List AircraftEntry) :=
  match d.aircraft with
  | none => .ok ([], [])
  | some entries => classify_list h entries

/-- The `for aircraft in new_aircrafts: self._create_aircraft_info(aircraft)`
loop of `_update_aircraft_history`. -/
def create_all (now : Nat) : History → List AircraftEntry → Except String History
  | h, [] => .ok h
  | h, a :: rest => do
      let h' ← create_aircraft_info now h a
      create_all now h' rest

/-- The `for aircraft in existing_aircrafts: self._update_aircraft_info(...)`
loop of `_update_aircraft_history`. -/
def update_all (now : Nat) (h : History) (es : List AircraftEntry) : History :=
  es.foldl (update_aircraft_info now) h

/-- The removal test of `_cleanup_old_aircrafts`: absent from the current hex
codes and unseen for strictly more than 300 seconds. -/
def staleTest (now : Nat) (currentHexes : List String) (p : String × AircraftInfo) : Bool :=
  !(currentHexes.contains p.1) && decide (300 < now - p.2.last_seen)

/-- `_cleanup_old_aircrafts`: compute the stale hex codes among the tracked
ones, delete them from the roster, and report them for queue purging. -/
def cleanup_old_aircrafts (now : Nat) (h : History) (current : List AircraftEntry) :
    History × List String :=
  let currentHexes := (current.filterMap truthyHexOf)
  let toRemove := (h.filter (staleTest now currentHexes)).map (·.1)
  (h.filter (fun p => !(toRemove.contains p.1)), toRemove)

/-- The mutable state of `PiPlaneMonitorService`: the roster and the three
fan-out queues. -/
structure MState where
  hist : History
  console_queue : List AircraftEntry
  lcd_queue : List AircraftEntry
  oled_queue : List AircraftEntry
deriving DecidableEq

/-- The queue filter of `_cleanup_queues_for_removed_aircraft`:
keep an entry unless its hex is one of the removed codes. -/
def purgeQueue (removed : List String) (q : List AircraftEntry) : List AircraftEntry :=
  q.filter (fun a =>
    match a.hex with
    | none => true
    | some s => !(removed.contains s))

/-- `_cleanup_queues_for_removed_aircraft`. -/
def cleanup_queues_for_removed_aircraft (removed : List String) (st : MState) : MState :=
  if removed.isEmpty then st
  else
    { st with
      console_queue := purgeQueue removed st.console_queue
      lcd_queue := purgeQueue removed st.lcd_queue
      oled_queue := purgeQueue removed st.oled_queue }

/-- `_update_aircraft_history`: create the new records, refresh the existing
ones, then expire stale aircraft and purge them from every queue. -/
def update_aircraft_history (now : Nat) (st : MState) (ns es : List AircraftEntry) :
    Except String MState := do
  let h1 ← create_all now st.hist ns
  let h2 := update_all now h1 es
  let (h3, removed) := cleanup_old_aircrafts now h2 es
  return cleanup_queues_for_removed_aircraft removed { st with hist := h3 }

/-- The hex codes pending in a queue, as collected by the set comprehension of
`_update_new_aircrafts_queue`. -/
def queueHexes (q : List AircraftEntry) : List String := q.filterMap truthyHexOf

/-- The per-aircraft loop of `_update_new_aircrafts_queue`.  The pending-code
sets `cset`, `lset`, `oset` were computed once before the loop and are not
refreshed as entries are appended. -/
def pushBatch (lcdOn oledOn : Bool) (cset lset oset : List String) :
    MState → List AircraftEntry → MState
  | st, [] => st
  | st, a :: rest =>
    if truthyHex a = false then pushBatch lcdOn oledOn cset lset oset st rest
    else
      pushBatch lcdOn oledOn cset lset oset
        { st with
          console_queue :=
            if !(cset.contains (hexKey a)) then st.console_queue ++ [a]
            else st.console_queue
          lcd_queue :=
            if lcdOn && !(lset.contains (hexKey a)) then st.lcd_queue ++ [a]
            else st.lcd_queue
          oled_queue :=
            if oledOn && !(oset.contains (hexKey a)) then st.oled_queue ++ [a]
            else st.oled_queue }
        rest

/-- `_update_new_aircrafts_queue`: distribute new aircraft to the enabled
queues, skipping codes already pending when the batch started. -/
def update_new_aircrafts_queue (lcdOn oledOn : Bool) (st : MState)
    (ns : List AircraftEntry) : MState :=
  if ns.isEmpty then st
  else
    pushBatch lcdOn oledOn (queueHexes st.console_queue) (queueHexes st.lcd_queue)
      (queueHexes st.oled_queue) st ns

/-- One body of the `while` of `start_monitoring.monitor_loop`: read result in
hand, classify, apply, expire (with queue purge), then fan out.  `none` covers
a failed or falsy read, which skips the cycle.  An error is a Python exception
escaping to the loop's `except` handler. -/
def process_cycle (lcdOn oledOn : Bool) (now : Nat) (st : MState)
    (data : Option RawData) : Except String MState :=
  match data with
  | none => .ok st
  | some d => do
      let (ns, es) ← get_new_and_existing_aircrafts st.hist d
      let st1 ← update_aircraft_history now st ns es
      return update_new_aircrafts_queue lcdOn oledOn st1 ns

/-- One loop iteration including the `except` handler: an exception leaves the
state as the partial mutations stand — which, for this cycle body, is the
state from before the cycle, since the only raising code
(`_get_new_and_existing_aircrafts`) runs before any mutation. -/
def monitor_step (lcdOn oledOn : Bool) (now : Nat) (st : MState)
    (data : Option RawData) : MState :=
  match process_cycle lcdOn oledOn now st data with
  | .ok st' => st'
  | .error _ => st

/-- The state at service construction: empty roster, empty queues. -/
def init_state : MState := ⟨[], [], [], []⟩

/-- A whole monitoring run over a list of (cycle time, read result) pairs. -/
def monitor_run (lcdOn oledOn : Bool) : MState → List (Nat × Option RawData) → MState
  | st, [] => st
  | st, (now, d) :: rest => monitor_run lcdOn oledOn (monitor_step lcdOn oledOn now st d) rest

/-- `BaseDisplayService.add_aircraft` from `src/services/display_services.py`:
append unless the hex is falsy or already pending in this queue. -/
def add_aircraft (q : List AircraftEntry) (a : AircraftEntry) : List AircraftEntry :=
  if truthyHex a = false then q
  else if (queueHexes q).contains (hexKey a) then q
  else q ++ [a]

/-- The scan of the older `monitor.py` `check_for_new_aircraft`: the roster is
mutated while iterating, every hex-carrying entry is recorded as present, new
ids are stored regardless of flight but reported only with a non-empty one. -/
def check_scan (now : Nat) (h : History) :
    List AircraftEntry → Except String (List AircraftEntry × History × List String)
  | [] => .ok ([], h, [])
  | a :: rest =>
    if truthyHex a = false then check_scan now h rest
    else
      let x := hexKey a
      if h.containsKey x then
        let h' :=
          match h.lookup x with
          | none => h
          | some info =>
              h.set x { info with last_seen := now, positions := info.positions ++ newPositions now a }
        do
          let (nl, h2, cur) ← check_scan now h' rest
          return (nl, h2, x :: cur)
      else do
        let f ← stripFlight a
        let h' := h.set x ⟨now, now, f, newPositions now a⟩
        let (nl, h2, cur) ← check_scan now h' rest
        return (if f == "" then nl else a :: nl, h2, x :: cur)

/-- `_cleanup_old_aircraft` of the older `monitor.py` (no queue purge). -/
def cleanup_old_aircraft (now : Nat) (h : History) (current : List String) : History :=
  h.filter (fun p => !(staleTest now current p))

/-- `check_for_new_aircraft` of the older `monitor.py`. -/
def check_for_new_aircraft (now : Nat) (h : History) (data : Option RawData) :
    Except String (List AircraftEntry × History) :=
  match data with
  | none => .ok ([], h)
  | some d =>
    match d.aircraft with
    | none => .ok ([], h)
    | some entries => do
        let (nl, h1, cur) ← check_scan now h entries
        return (nl, cleanup_old_aircraft now h1 cur)

/-- Decidable check: the flight field, when present, is a string value
(exactly the data shapes on which `.strip()` does not raise). -/
def flightOkB (a : AircraftEntry) : Bool :=
  match a.flight.getD (.str "") with
  | .str _ => true
  | _ => false

/-- Decidable validity (meaningful on `flightOkB` entries): non-empty stripped
flight string. -/
def validB (a : AircraftEntry) : Bool :=
  match a.flight.getD (.str "") with
  | .str s => !(pystrip s == "")
  | _ => false

/-- An entry the classifier reports as new against roster `h`. -/
def isNewB (h : History) (a : AircraftEntry) : Bool :=
  truthyHex a && validB a && !(h.containsKey (hexKey a))

/-- An entry the classifier reports as existing against roster `h`. -/
def isExistingB (h : History) (a : AircraftEntry) : Bool :=
  truthyHex a && validB a && h.containsKey (hexKey a)

end PiPlane

namespace PiPlane

/-! ### Step lemmas for the dict operations -/

theorem containsKey_nil (k : String) : History.containsKey [] k = false := rfl

theorem containsKey_cons (p : String × AircraftInfo) (h : History) (k : String) :
    History.containsKey (p :: h) k = (p.1 == k || History.containsKey h k) := rfl

theorem lookup_nil (k : String) : History.lookup [] k = none := rfl

theorem lookup_cons (p : String × AircraftInfo) (h : History) (k : String) :
    History.lookup (p :: h) k = if p.1 == k then some p.2 else History.lookup h k := by
  cases hpk : p.1 == k <;> simp [History.lookup, List.find?, hpk]

theorem set_nil (k : String) (v : AircraftInfo) : History.set [] k v = [(k, v)] := rfl

theorem set_cons (p : String × AircraftInfo) (h : History) (k : String) (v : AircraftInfo) :
    History.set (p :: h) k v = if p.1 == k then (k, v) :: h else p :: History.set h k v := rfl

theorem keys_nil : History.keys [] = [] := rfl

theorem keys_cons (p : String × AircraftInfo) (h : History) :
    History.keys (p :: h) = p.1 :: History.keys h := rfl

theorem containsKey_iff (h : History) (k : String) :
    h.containsKey k = true ↔ k ∈ h.keys := by
  induction h with
  | nil => simp [containsKey_nil, keys_nil]
  | cons p rest ih =>
    rw [containsKey_cons, keys_cons]
    simp only [Bool.or_eq_true, beq_iff_eq, ih, List.mem_cons]
    constructor
    · rintro (rfl | hm)
      · exact Or.inl rfl
      · exact Or.inr hm
    · rintro (rfl | hm)
      · exact Or.inl rfl
      · exact Or.inr hm

theorem containsKey_pair (h : History) (k : String) :
    h.containsKey k = true ↔ ∃ v, (k, v) ∈ h := by
  induction h with
  | nil => simp [containsKey_nil]
  | cons p rest ih =>
    obtain ⟨k', v'⟩ := p
    simp only [containsKey_cons, Bool.or_eq_true, beq_iff_eq, ih, List.mem_cons]
    constructor
    · rintro (rfl | ⟨v, hv⟩)
      · exact ⟨v', Or.inl rfl⟩
      · exact ⟨v, Or.inr hv⟩
    · rintro ⟨v, hv | hv⟩
      · cases hv; exact Or.inl rfl
      · exact Or.inr ⟨v, hv⟩

theorem lookup_isSome (h : History) (k : String) :
    (h.lookup k).isSome = h.containsKey k := by
  induction h with
  | nil => rfl
  | cons p rest ih =>
    rw [lookup_cons, containsKey_cons]
    cases hpk : p.1 == k <;> simp [hpk, ih]

theorem lookup_mem {h : History} {k : String} {v : AircraftInfo}
    (hl : h.lookup k = some v) : (k, v) ∈ h := by
  induction h with
  | nil => simp [lookup_nil] at hl
  | cons p rest ih =>
    rw [lookup_cons] at hl
    by_cases hpk : p.1 = k
    · obtain ⟨k', v'⟩ := p
      simp only at hpk
      subst hpk
      rw [if_pos (by simp)] at hl
      injection hl with hv
      subst hv
      exact List.mem_cons_self _ _
    · rw [if_neg (by simp [hpk])] at hl
      exact List.mem_cons_of_mem _ (ih hl)

theorem lookup_eq_of_nodup {h : History} {k : String} {v : AircraftInfo}
    (hnd : h.keys.Nodup) (hm : (k, v) ∈ h) : h.lookup k = some v := by
  induction h with
  | nil => simp at hm
  | cons p rest ih =>
    rw [keys_cons, List.nodup_cons] at hnd
    rw [lookup_cons]
    rcases List.mem_cons.mp hm with heq | htl
    · subst heq; simp
    · have hk : p.1 ≠ k := fun hpk =>
        hnd.1 (hpk ▸ List.mem_map.mpr ⟨(k, v), htl, rfl⟩)
      rw [if_neg (by simp [hk])]
      exact ih hnd.2 htl

theorem set_containsKey (h : History) (k x : String) (v : AircraftInfo) :
    (h.set k v).containsKey x = (h.containsKey x || x == k) := by
  induction h with
  | nil =>
    simp [set_nil, containsKey_cons, containsKey_nil, BEq.comm]
  | cons p rest ih =>
    rw [set_cons]
    cases hpk : p.1 == k with
    | true =>
      have : p.1 = k := by simpa using hpk
      subst this
      simp only [if_true, containsKey_cons]
      cases hpx : p.1 == x <;> cases hxp : x == p.1 <;>
        simp_all [beq_iff_eq, BEq.comm]
    | false =>
      rw [if_neg (by simp), containsKey_cons, containsKey_cons, ih, Bool.or_assoc]

theorem set_lookup_self (h : History) (k : String) (v : AircraftInfo) :
    (h.set k v).lookup k = some v := by
  induction h with
  | nil => simp [set_nil, lookup_cons]
  | cons p rest ih =>
    rw [set_cons]
    cases hpk : p.1 == k with
    | true => simp [lookup_cons]
    | false => simp [lookup_cons, hpk, ih]

theorem set_lookup_ne (h : History) {k x : String} (v : AircraftInfo) (hne : x ≠ k) :
    (h.set k v).lookup x = h.lookup x := by
  induction h with
  | nil =>
    simp [set_nil, lookup_cons, lookup_nil, beq_false_of_ne (Ne.symm hne)]
  | cons p rest ih =>
    rw [set_cons]
    cases hpk : p.1 == k with
    | true =>
      have hp : p.1 = k := by simpa using hpk
      have hkx : (k == x) = false := beq_false_of_ne (Ne.symm hne)
      rw [if_pos rfl]
      simp [lookup_cons, hp, hkx]
    | false =>
      rw [if_neg (by simp), lookup_cons, lookup_cons, ih]

theorem set_keys_of_contains {h : History} {k : String} (v : AircraftInfo)
    (hc : h.containsKey k = true) : (h.set k v).keys = h.keys := by
  induction h with
  | nil => simp [containsKey_nil] at hc
  | cons p rest ih =>
    rw [set_cons]
    cases hpk : p.1 == k with
    | true =>
      have hp : p.1 = k := by simpa using hpk
      simp [keys_cons, hp]
    | false =>
      rw [containsKey_cons, hpk] at hc
      simp only [Bool.false_or] at hc
      simp [keys_cons, ih hc]

theorem set_keys_nodup {h : History} {k : String} (v : AircraftInfo)
    (hnd : h.keys.Nodup) : (h.set k v).keys.Nodup := by
  induction h with
  | nil => simp [set_nil, keys_cons, keys_nil]
  | cons p rest ih =>
    rw [keys_cons, List.nodup_cons] at hnd
    rw [set_cons]
    cases hpk : p.1 == k with
    | true =>
      have hp : p.1 = k := by simpa using hpk
      rw [if_pos rfl, keys_cons, List.nodup_cons]
      exact ⟨hp ▸ hnd.1, hnd.2⟩
    | false =>
      rw [if_neg (by simp), keys_cons, List.nodup_cons]
      refine ⟨?_, ih hnd.2⟩
      intro hmem
      have hck : (History.set rest k v).containsKey p.1 = true :=
        (containsKey_iff _ _).mpr hmem
      rw [set_containsKey] at hck
      simp only [Bool.or_eq_true, beq_iff_eq] at hck
      rcases hck with hck | hck
      · exact hnd.1 ((containsKey_iff _ _).mp hck)
      · simp [hck] at hpk

/-! ### Flight-field and classifier lemmas -/

theorem except_bind_ok {ε α β : Type} (a : α) (f : α → Except ε β) :
    (Except.ok a >>= f) = f a := rfl

theorem except_bind_err {ε α β : Type} (e : ε) (f : α → Except ε β) :
    ((Except.error e : Except ε α) >>= f) = Except.error e := rfl

theorem except_pure {ε α : Type} (a : α) : (pure a : Except ε α) = Except.ok a := rfl

theorem stripFlight_of_flightOk {a : AircraftEntry} (hf : flightOkB a = true) :
    stripFlight a = .ok (pystrip (match a.flight.getD (.str "") with | .str s => s | _ => "")) := by
  unfold flightOkB at hf
  unfold stripFlight
  cases hj : a.flight.getD (.str "") with
  | str s => rfl
  | num n => rw [hj] at hf; cases hf
  | null => rw [hj] at hf; cases hf

theorem flightOk_of_stripFlight_ok {a : AircraftEntry} {f : String}
    (h : stripFlight a = .ok f) : flightOkB a = true ∧ validB a = !(f == "") := by
  unfold stripFlight at h
  unfold flightOkB validB
  cases hj : a.flight.getD (.str "") with
  | str s =>
    rw [hj] at h
    injection h with h
    subst h
    exact ⟨rfl, rfl⟩
  | num n => rw [hj] at h; cases h
  | null => rw [hj] at h; cases h

theorem is_valid_eq_of_flightOk {a : AircraftEntry} (hf : flightOkB a = true) :
    is_valid_aircraft a = .ok (validB a) := by
  unfold is_valid_aircraft
  rw [stripFlight_of_flightOk hf, except_bind_ok]
  unfold flightOkB at hf
  unfold validB
  cases hj : a.flight.getD (.str "") with
  | str s => rfl
  | num n => rw [hj] at hf; cases hf
  | null => rw [hj] at hf; cases hf

theorem is_valid_ok_true {a : AircraftEntry} {b : Bool}
    (h : is_valid_aircraft a = .ok b) : flightOkB a = true ∧ validB a = b := by
  unfold is_valid_aircraft at h
  cases hs : stripFlight a with
  | ok f =>
    rw [hs, except_bind_ok] at h
    injection h with h
    obtain ⟨h1, h2⟩ := flightOk_of_stripFlight_ok hs
    exact ⟨h1, h ▸ h2⟩
  | error e => rw [hs, except_bind_err] at h; cases h

theorem classify_eq_filter {h : History} {l : List AircraftEntry}
    (hf : ∀ a ∈ l, flightOkB a = true) :
    classify_list h l = .ok (l.filter (isNewB h), l.filter (isExistingB h)) := by
  induction l with
  | nil => rfl
  | cons a rest ih =>
    have hfa : flightOkB a = true := hf a (List.mem_cons_self _ _)
    have hfr : ∀ b ∈ rest, flightOkB b = true := fun b hb => hf b (List.mem_cons_of_mem _ hb)
    rw [classify_list]
    by_cases ht : truthyHex a = false
    · have h1 : isNewB h a = false := by simp [isNewB, ht]
      have h2 : isExistingB h a = false := by simp [isExistingB, ht]
      rw [if_pos ht, ih hfr, List.filter_cons, List.filter_cons, h1, h2]
      simp
    · have htt : truthyHex a = true := by simpa using ht
      rw [if_neg ht, is_valid_eq_of_flightOk hfa, except_bind_ok]
      by_cases hv : validB a = false
      · have h1 : isNewB h a = false := by simp [isNewB, hv]
        have h2 : isExistingB h a = false := by simp [isExistingB, hv]
        rw [if_pos hv, ih hfr, List.filter_cons, List.filter_cons, h1, h2]
        simp
      · have hvt : validB a = true := by simpa using hv
        rw [if_neg hv, ih hfr, except_bind_ok]
        cases hck : History.containsKey h (hexKey a) with
        | true =>
          have h1 : isNewB h a = false := by simp [isNewB, hck]
          have h2 : isExistingB h a = true := by simp [isExistingB, htt, hvt, hck]
          simp only [hck, if_true, List.filter_cons, h1, h2, if_false]
          rfl
        | false =>
          have h1 : isNewB h a = true := by simp [isNewB, htt, hvt, hck]
          have h2 : isExistingB h a = false := by simp [isExistingB, hck]
          simp only [hck, List.filter_cons, h1, h2, if_true, if_false]
          rfl

theorem classify_mem_new {h : History} {l ns es : List AircraftEntry}
    (hc : classify_list h l = .ok (ns, es)) :
    ∀ a ∈ ns, a ∈ l ∧ truthyHex a = true ∧ flightOkB a = true ∧ validB a = true ∧
      h.containsKey (hexKey a) = false := by
  induction l generalizing ns es with
  | nil =>
    injection hc with hc
    injection hc with hns hes
    subst hns
    intro a ha
    cases ha
  | cons b rest ih =>
    rw [classify_list] at hc
    by_cases ht : truthyHex b = false
    · rw [if_pos ht] at hc
      intro a ha
      obtain ⟨h1, h2⟩ := ih hc a ha
      exact ⟨List.mem_cons_of_mem _ h1, h2⟩
    · rw [if_neg ht] at hc
      cases hv : is_valid_aircraft b with
      | error e => rw [hv, except_bind_err] at hc; cases hc
      | ok valid =>
        rw [hv, except_bind_ok] at hc
        by_cases hvf : valid = false
        · rw [if_pos hvf] at hc
          intro a ha
          obtain ⟨h1, h2⟩ := ih hc a ha
          exact ⟨List.mem_cons_of_mem _ h1, h2⟩
        · rw [if_neg hvf] at hc
          cases hrec : classify_list h rest with
          | error e => rw [hrec, except_bind_err] at hc; cases hc
          | ok p =>
            obtain ⟨ns', es'⟩ := p
            rw [hrec, except_bind_ok] at hc
            cases hck : History.containsKey h (hexKey b) with
            | true =>
              simp only [hck, if_true] at hc
              injection hc with hc
              injection hc with hns hes
              subst hns
              intro a ha
              obtain ⟨h1, h2⟩ := ih hrec a ha
              exact ⟨List.mem_cons_of_mem _ h1, h2⟩
            | false =>
              simp only [hck, if_false] at hc
              injection hc with hc
              injection hc with hns hes
              subst hns
              intro a ha
              rcases List.mem_cons.mp ha with rfl | ha
              · obtain ⟨hfo, hva⟩ := is_valid_ok_true hv
                have htt : truthyHex a = true := by simpa using ht
                have hvt : validB a = true := by
                  rw [hva]
                  simpa using hvf
                exact ⟨List.mem_cons_self _ _, htt, hfo, hvt, hck⟩
              · obtain ⟨h1, h2⟩ := ih hrec a ha
                exact ⟨List.mem_cons_of_mem _ h1, h2⟩

theorem classify_mem_exist {h : History} {l ns es : List AircraftEntry}
    (hc : classify_list h l = .ok (ns, es)) :
    ∀ a ∈ es, a ∈ l ∧ truthyHex a = true ∧ flightOkB a = true ∧ validB a = true ∧
      h.containsKey (hexKey a) = true := by
  induction l generalizing ns es with
  | nil =>
    injection hc with hc
    injection hc with hns hes
    subst hes
    intro a ha
    cases ha
  | cons b rest ih =>
    rw [classify_list] at hc
    by_cases ht : truthyHex b = false
    · rw [if_pos ht] at hc
      intro a ha
      obtain ⟨h1, h2⟩ := ih hc a ha
      exact ⟨List.mem_cons_of_mem _ h1, h2⟩
    · rw [if_neg ht] at hc
      cases hv : is_valid_aircraft b with
      | error e => rw [hv, except_bind_err] at hc; cases hc
      | ok valid =>
        rw [hv, except_bind_ok] at hc
        by_cases hvf : valid = false
        · rw [if_pos hvf] at hc
          intro a ha
          obtain ⟨h1, h2⟩ := ih hc a ha
          exact ⟨List.mem_cons_of_mem _ h1, h2⟩
        · rw [if_neg hvf] at hc
          cases hrec : classify_list h rest with
          | error e => rw [hrec, except_bind_err] at hc; cases hc
          | ok p =>
            obtain ⟨ns', es'⟩ := p
            rw [hrec, except_bind_ok] at hc
            cases hck : History.containsKey h (hexKey b) with
            | true =>
              simp only [hck, if_true] at hc
              injection hc with hc
              injection hc with hns hes
              subst hes
              intro a ha
              rcases List.mem_cons.mp ha with rfl | ha
              · obtain ⟨hfo, hva⟩ := is_valid_ok_true hv
                have htt : truthyHex a = true := by simpa using ht
                have hvt : validB a = true := by
                  rw [hva]
                  simpa using hvf
                exact ⟨List.mem_cons_self _ _, htt, hfo, hvt, hck⟩
              · obtain ⟨h1, h2⟩ := ih hrec a ha
                exact ⟨List.mem_cons_of_mem _ h1, h2⟩
            | false =>
              simp only [hck, if_false] at hc
              injection hc with hc
              injection hc with hns hes
              subst hes
              intro a ha
              obtain ⟨h1, h2⟩ := ih hrec a ha
              exact ⟨List.mem_cons_of_mem _ h1, h2⟩

/-! ### Lemmas about apply (create/update) and expiry -/

theorem create_ok_inv {now : Nat} {h : History} {a : AircraftEntry} {h' : History}
    (hc : create_aircraft_info now h a = .ok h') :
    (truthyHex a = false ∧ h' = h) ∨
    (truthyHex a = true ∧ ∃ f, stripFlight a = .ok f ∧
      h' = h.set (hexKey a) ⟨now, now, f, newPositions now a⟩) := by
  unfold create_aircraft_info at hc
  by_cases ht : truthyHex a = false
  · rw [if_pos ht] at hc
    injection hc with hc
    exact Or.inl ⟨ht, hc.symm⟩
  · rw [if_neg ht] at hc
    cases hs : stripFlight a with
    | ok f =>
      rw [hs, except_bind_ok] at hc
      injection hc with hc
      exact Or.inr ⟨by simpa using ht, f, rfl, hc.symm⟩
    | error e => rw [hs, except_bind_err] at hc; cases hc

theorem create_all_contains_mono {now : Nat} {h : History} {l : List AircraftEntry}
    {h' : History} (hc : create_all now h l = .ok h') {x : String}
    (hx : h.containsKey x = true) : h'.containsKey x = true := by
  induction l generalizing h with
  | nil => injection hc with hc; exact hc ▸ hx
  | cons a rest ih =>
    rw [create_all] at hc
    cases h1 : create_aircraft_info now h a with
    | error e => rw [h1, except_bind_err] at hc; cases hc
    | ok hmid =>
      rw [h1, except_bind_ok] at hc
      rcases create_ok_inv h1 with ⟨_, rfl⟩ | ⟨_, f, _, rfl⟩
      · exact ih hc hx
      · refine ih hc ?_
        rw [set_containsKey, hx, Bool.true_or]

theorem create_all_contains_of_mem {now : Nat} {h : History} {l : List AircraftEntry}
    {h' : History} (hc : create_all now h l = .ok h') {a : AircraftEntry}
    (ha : a ∈ l) (ht : truthyHex a = true) : h'.containsKey (hexKey a) = true := by
  induction l generalizing h with
  | nil => cases ha
  | cons b rest ih =>
    rw [create_all] at hc
    cases h1 : create_aircraft_info now h b with
    | error e => rw [h1, except_bind_err] at hc; cases hc
    | ok hmid =>
      rw [h1, except_bind_ok] at hc
      rcases List.mem_cons.mp ha with rfl | ha
      · rcases create_ok_inv h1 with ⟨hf, rfl⟩ | ⟨_, f, _, rfl⟩
        · rw [ht] at hf; cases hf
        · exact create_all_contains_mono hc (by rw [set_containsKey]; simp)
      · exact ih hc ha

theorem create_all_contains_sup {now : Nat} {h : History} {l : List AircraftEntry}
    {h' : History} (hc : create_all now h l = .ok h') {x : String}
    (hx : h'.containsKey x = true) :
    h.containsKey x = true ∨ ∃ a ∈ l, truthyHex a = true ∧ hexKey a = x := by
  induction l generalizing h with
  | nil => injection hc with hc; exact Or.inl (hc ▸ hx)
  | cons a rest ih =>
    rw [create_all] at hc
    cases h1 : create_aircraft_info now h a with
    | error e => rw [h1, except_bind_err] at hc; cases hc
    | ok hmid =>
      rw [h1, except_bind_ok] at hc
      rcases ih hc with hmid2 | ⟨b, hb, hb2⟩
      · rcases create_ok_inv h1 with ⟨_, rfl⟩ | ⟨hta, f, _, rfl⟩
        · exact Or.inl hmid2
        · rw [set_containsKey] at hmid2
          rw [Bool.or_eq_true] at hmid2
          rcases hmid2 with hm | hm
          · exact Or.inl hm
          · exact Or.inr ⟨a, List.mem_cons_self _ _, hta, (beq_iff_eq.mp hm).symm⟩
      · exact Or.inr ⟨b, List.mem_cons_of_mem _ hb, hb2⟩

theorem create_all_lookup_unchanged {now : Nat} {h : History} {l : List AircraftEntry}
    {h' : History} (hc : create_all now h l = .ok h') {x : String}
    (hx : ∀ a ∈ l, truthyHex a = true → hexKey a ≠ x) : h'.lookup x = h.lookup x := by
  induction l generalizing h with
  | nil => injection hc with hc; rw [hc]
  | cons a rest ih =>
    rw [create_all] at hc
    cases h1 : create_aircraft_info now h a with
    | error e => rw [h1, except_bind_err] at hc; cases hc
    | ok hmid =>
      rw [h1, except_bind_ok] at hc
      have hrest : ∀ b ∈ rest, truthyHex b = true → hexKey b ≠ x :=
        fun b hb => hx b (List.mem_cons_of_mem _ hb)
      rcases create_ok_inv h1 with ⟨_, rfl⟩ | ⟨hta, f, _, rfl⟩
      · exact ih hc hrest
      · rw [ih hc hrest]
        exact set_lookup_ne _ _ (Ne.symm (hx a (List.mem_cons_self _ _) hta))

theorem create_all_lookup_now {now : Nat} {h : History} {l : List AircraftEntry}
    {h' : History} (hc : create_all now h l = .ok h') (x : String) :
    h'.lookup x = h.lookup x ∨
    ∃ f ps, h'.lookup x = some ⟨now, now, f, ps⟩ := by
  induction l generalizing h with
  | nil => injection hc with hc; exact Or.inl (by rw [hc])
  | cons a rest ih =>
    rw [create_all] at hc
    cases h1 : create_aircraft_info now h a with
    | error e => rw [h1, except_bind_err] at hc; cases hc
    | ok hmid =>
      rw [h1, except_bind_ok] at hc
      rcases ih hc with hu | hnow
      · rcases create_ok_inv h1 with ⟨_, rfl⟩ | ⟨hta, f, _, rfl⟩
        · exact Or.inl hu
        · by_cases hxa : x = hexKey a
          · subst hxa
            rw [hu, set_lookup_self]
            exact Or.inr ⟨f, _, rfl⟩
          · rw [hu, set_lookup_ne _ _ hxa]
            exact Or.inl rfl
      · exact Or.inr hnow

theorem create_all_keys_nodup {now : Nat} {h : History} {l : List AircraftEntry}
    {h' : History} (hc : create_all now h l = .ok h') (hnd : h.keys.Nodup) :
    h'.keys.Nodup := by
  induction l generalizing h with
  | nil => injection hc with hc; exact hc ▸ hnd
  | cons a rest ih =>
    rw [create_all] at hc
    cases h1 : create_aircraft_info now h a with
    | error e => rw [h1, except_bind_err] at hc; cases hc
    | ok hmid =>
      rw [h1, except_bind_ok] at hc
      rcases create_ok_inv h1 with ⟨_, rfl⟩ | ⟨_, f, _, rfl⟩
      · exact ih hc hnd
      · exact ih hc (set_keys_nodup _ hnd)

theorem update_info_keys (now : Nat) (h : History) (a : AircraftEntry) :
    (update_aircraft_info now h a).keys = h.keys := by
  unfold update_aircraft_info
  by_cases ht : truthyHex a = false
  · rw [if_pos ht]
  · rw [if_neg ht]
    cases hl : h.lookup (hexKey a) with
    | none => rfl
    | some info =>
      refine set_keys_of_contains _ ?_
      rw [← lookup_isSome, hl]
      rfl

theorem update_all_keys (now : Nat) (h : History) (es : List AircraftEntry) :
    (update_all now h es).keys = h.keys := by
  induction es generalizing h with
  | nil => rfl
  | cons a rest ih =>
    show (update_all now (update_aircraft_info now h a) rest).keys = h.keys
    rw [ih, update_info_keys]

theorem containsKey_eq_keys_contains (h : History) (x : String) :
    h.containsKey x = h.keys.contains x := by
  induction h with
  | nil => rfl
  | cons p rest ih =>
    rw [containsKey_cons, keys_cons, ih]
    show _ = List.elem x (p.1 :: (History.keys rest))
    rw [List.elem_cons]
    cases hpx : p.1 == x with
    | true =>
      have : (x == p.1) = true := by simp [beq_iff_eq] at hpx ⊢; exact hpx.symm
      rw [this]
      simp
    | false =>
      have : (x == p.1) = false := by
        simp only [beq_eq_false_iff_ne] at hpx ⊢
        exact Ne.symm hpx
      rw [this]
      simp [List.contains]

theorem update_all_containsKey (now : Nat) (h : History) (es : List AircraftEntry)
    (x : String) : (update_all now h es).containsKey x = h.containsKey x := by
  rw [containsKey_eq_keys_contains, containsKey_eq_keys_contains, update_all_keys]

theorem update_all_keys_nodup {now : Nat} {h : History} {es : List AircraftEntry}
    (hnd : h.keys.Nodup) : (update_all now h es).keys.Nodup := by
  rw [update_all_keys]; exact hnd

theorem update_info_lookup_ne {now : Nat} {h : History} {a : AircraftEntry} {x : String}
    (hx : truthyHex a = true → hexKey a ≠ x) :
    (update_aircraft_info now h a).lookup x = h.lookup x := by
  unfold update_aircraft_info
  by_cases ht : truthyHex a = false
  · rw [if_pos ht]
  · rw [if_neg ht]
    cases hl : h.lookup (hexKey a) with
    | none => rfl
    | some info => exact set_lookup_ne _ _ (Ne.symm (hx (by simpa using ht)))

theorem update_all_lookup_unchanged {now : Nat} {h : History} {es : List AircraftEntry}
    {x : String} (hx : ∀ a ∈ es, truthyHex a = true → hexKey a ≠ x) :
    (update_all now h es).lookup x = h.lookup x := by
  induction es generalizing h with
  | nil => rfl
  | cons a rest ih =>
    show (update_all now (update_aircraft_info now h a) rest).lookup x = h.lookup x
    rw [ih (fun b hb => hx b (List.mem_cons_of_mem _ hb)),
      update_info_lookup_ne (hx a (List.mem_cons_self _ _))]

theorem update_info_lookup_dichotomy (now : Nat) (h : History) (a : AircraftEntry)
    (x : String) :
    (update_aircraft_info now h a).lookup x = h.lookup x ∨
    ∃ info, h.lookup x = some info ∧
      (update_aircraft_info now h a).lookup x =
        some { info with last_seen := now, positions := info.positions ++ newPositions now a } := by
  unfold update_aircraft_info
  by_cases ht : truthyHex a = false
  · rw [if_pos ht]; exact Or.inl rfl
  · rw [if_neg ht]
    cases hl : h.lookup (hexKey a) with
    | none => exact Or.inl rfl
    | some info =>
      by_cases hxa : x = hexKey a
      · subst hxa
        exact Or.inr ⟨info, hl, set_lookup_self _ _ _⟩
      · exact Or.inl (set_lookup_ne _ _ hxa)

theorem update_all_lastseen_now {now : Nat} {h : History} {es : List AircraftEntry}
    {x : String} (hx : ∃ i, h.lookup x = some i ∧ i.last_seen = now) :
    ∃ i, (update_all now h es).lookup x = some i ∧ i.last_seen = now := by
  induction es generalizing h with
  | nil => exact hx
  | cons a rest ih =>
    show ∃ i, (update_all now (update_aircraft_info now h a) rest).lookup x = some i ∧
      i.last_seen = now
    refine ih ?_
    obtain ⟨i, hi, hlast⟩ := hx
    rcases update_info_lookup_dichotomy now h a x with hu | ⟨info, hinfo, hu⟩
    · exact ⟨i, hu ▸ hi, hlast⟩
    · exact ⟨_, hu, rfl⟩

/-! ### Lemmas about expiry, queues and the cycle -/

theorem list_contains_iff (l : List String) (x : String) :
    l.contains x = true ↔ x ∈ l := by
  induction l with
  | nil => simp [List.contains]
  | cons a rest ih =>
    show List.elem x (a :: rest) = true ↔ _
    rw [List.elem_cons]
    cases hxa : x == a with
    | true =>
      simp only [if_pos rfl]
      simp [beq_iff_eq.mp hxa]
    | false =>
      have : x ≠ a := by simpa using hxa
      simp only [hxa, List.mem_cons, this, false_or]
      exact ih

theorem containsKey_filter_key (h : History) (f : String → Bool) (x : String) :
    History.containsKey (h.filter (fun p => f p.1)) x = (h.containsKey x && f x) := by
  induction h with
  | nil => simp [containsKey_nil]
  | cons p rest ih =>
    rw [List.filter_cons]
    by_cases hpx : p.1 = x
    · subst hpx
      cases hf : f p.1 with
      | true =>
        rw [if_pos rfl]
        rw [containsKey_cons, containsKey_cons]
        simp [hf]
      | false =>
        simp only [Bool.false_eq_true, if_false]
        rw [ih, containsKey_cons]
        simp [hf]
    · have hbx : (p.1 == x) = false := by simpa using hpx
      cases hf : f p.1 with
      | true =>
        rw [if_pos rfl, containsKey_cons, containsKey_cons, hbx, ih]
        simp
      | false =>
        simp only [Bool.false_eq_true, if_false]
        rw [ih, containsKey_cons, hbx]
        simp

theorem cleanup_fst_containsKey (now : Nat) (h : History) (cur : List AircraftEntry)
    (x : String) :
    History.containsKey (cleanup_old_aircrafts now h cur).1 x =
      (h.containsKey x && !(((cleanup_old_aircrafts now h cur).2).contains x)) := by
  simp only [cleanup_old_aircrafts]
  exact containsKey_filter_key h
    (fun k =>
      !((List.map (fun q => q.1)
          (List.filter (staleTest now (List.filterMap truthyHexOf cur)) h)).contains k)) x

theorem mem_cleanup_removed (now : Nat) (h : History) (cur : List AircraftEntry)
    (x : String) :
    x ∈ (cleanup_old_aircrafts now h cur).2 ↔
      ∃ info, (x, info) ∈ h ∧
        staleTest now (cur.filterMap truthyHexOf) (x, info) = true := by
  unfold cleanup_old_aircrafts
  simp only [List.mem_map, List.mem_filter]
  constructor
  · rintro ⟨p, ⟨hp, hs⟩, rfl⟩
    obtain ⟨k, v⟩ := p
    exact ⟨v, hp, hs⟩
  · rintro ⟨info, hm, hs⟩
    exact ⟨(x, info), ⟨hm, hs⟩, rfl⟩

theorem staleTest_iff (now : Nat) (cs : List String) (p : String × AircraftInfo) :
    staleTest now cs p = true ↔ cs.contains p.1 = false ∧ 300 < now - p.2.last_seen := by
  unfold staleTest
  rw [Bool.and_eq_true, Bool.not_eq_true']
  simp

theorem cleanup_keys_nodup {now : Nat} {cur : List AircraftEntry} {h : History}
    (hnd : h.keys.Nodup) : ((cleanup_old_aircrafts now h cur).1).keys.Nodup := by
  unfold cleanup_old_aircrafts
  exact List.Nodup.sublist (List.Sublist.map _ (List.filter_sublist _)) hnd

theorem truthyHexOf_eq_some {a : AircraftEntry} {x : String} :
    truthyHexOf a = some x ↔ truthyHex a = true ∧ hexKey a = x := by
  unfold truthyHexOf truthyHex hexKey
  cases a.hex with
  | none => simp
  | some s =>
    by_cases hs : s = ""
    · subst hs; simp
    · have : (s == "") = false := by simpa using hs
      simp [this]

theorem mem_currentHexes {es : List AircraftEntry} {x : String} :
    x ∈ es.filterMap truthyHexOf ↔ ∃ a ∈ es, truthyHex a = true ∧ hexKey a = x := by
  simp only [List.mem_filterMap, truthyHexOf_eq_some]

theorem purgeQueue_mem {removed : List String} {q : List AircraftEntry}
    {a : AircraftEntry} (ha : a ∈ purgeQueue removed q) :
    a ∈ q ∧ (truthyHex a = true → (removed.contains (hexKey a)) = false) := by
  unfold purgeQueue at ha
  rw [List.mem_filter] at ha
  refine ⟨ha.1, fun ht => ?_⟩
  have := ha.2
  unfold truthyHex at ht
  unfold hexKey
  cases hx : a.hex with
  | none => rw [hx] at ht; cases ht
  | some s =>
    rw [hx] at this
    simpa using this

theorem cleanup_queues_hist (removed : List String) (st : MState) :
    (cleanup_queues_for_removed_aircraft removed st).hist = st.hist := by
  unfold cleanup_queues_for_removed_aircraft
  by_cases hr : removed.isEmpty
  · rw [if_pos hr]
  · rw [if_neg hr]

theorem pushBatch_hist (lcdOn oledOn : Bool) (cset lset oset : List String)
    (st : MState) (l : List AircraftEntry) :
    (pushBatch lcdOn oledOn cset lset oset st l).hist = st.hist := by
  induction l generalizing st with
  | nil => rfl
  | cons a rest ih =>
    rw [pushBatch]
    by_cases ht : truthyHex a = false
    · rw [if_pos ht]; exact ih st
    · rw [if_neg ht]; exact ih _

theorem pushBatch_console_mem {lcdOn oledOn : Bool} {cset lset oset : List String}
    {st : MState} {l : List AircraftEntry} {a : AircraftEntry}
    (ha : a ∈ (pushBatch lcdOn oledOn cset lset oset st l).console_queue) :
    a ∈ st.console_queue ∨ a ∈ l := by
  induction l generalizing st with
  | nil => exact Or.inl ha
  | cons b rest ih =>
    rw [pushBatch] at ha
    by_cases ht : truthyHex b = false
    · rw [if_pos ht] at ha
      rcases ih ha with hq | hl
      · exact Or.inl hq
      · exact Or.inr (List.mem_cons_of_mem _ hl)
    · rw [if_neg ht] at ha
      rcases ih ha with hq | hl
      · dsimp only at hq
        split at hq
        · rcases List.mem_append.mp hq with hq2 | hq2
          · exact Or.inl hq2
          · rcases List.mem_singleton.mp hq2 with rfl
            exact Or.inr (List.mem_cons_self _ _)
        · exact Or.inl hq
      · exact Or.inr (List.mem_cons_of_mem _ hl)

theorem pushBatch_lcd_mem {lcdOn oledOn : Bool} {cset lset oset : List String}
    {st : MState} {l : List AircraftEntry} {a : AircraftEntry}
    (ha : a ∈ (pushBatch lcdOn oledOn cset lset oset st l).lcd_queue) :
    a ∈ st.lcd_queue ∨ a ∈ l := by
  induction l generalizing st with
  | nil => exact Or.inl ha
  | cons b rest ih =>
    rw [pushBatch] at ha
    by_cases ht : truthyHex b = false
    · rw [if_pos ht] at ha
      rcases ih ha with hq | hl
      · exact Or.inl hq
      · exact Or.inr (List.mem_cons_of_mem _ hl)
    · rw [if_neg ht] at ha
      rcases ih ha with hq | hl
      · dsimp only at hq
        split at hq
        · rcases List.mem_append.mp hq with hq2 | hq2
          · exact Or.inl hq2
          · rcases List.mem_singleton.mp hq2 with rfl
            exact Or.inr (List.mem_cons_self _ _)
        · exact Or.inl hq
      · exact Or.inr (List.mem_cons_of_mem _ hl)

theorem pushBatch_oled_mem {lcdOn oledOn : Bool} {cset lset oset : List String}
    {st : MState} {l : List AircraftEntry} {a : AircraftEntry}
    (ha : a ∈ (pushBatch lcdOn oledOn cset lset oset st l).oled_queue) :
    a ∈ st.oled_queue ∨ a ∈ l := by
  induction l generalizing st with
  | nil => exact Or.inl ha
  | cons b rest ih =>
    rw [pushBatch] at ha
    by_cases ht : truthyHex b = false
    · rw [if_pos ht] at ha
      rcases ih ha with hq | hl
      · exact Or.inl hq
      · exact Or.inr (List.mem_cons_of_mem _ hl)
    · rw [if_neg ht] at ha
      rcases ih ha with hq | hl
      · dsimp only at hq
        split at hq
        · rcases List.mem_append.mp hq with hq2 | hq2
          · exact Or.inl hq2
          · rcases List.mem_singleton.mp hq2 with rfl
            exact Or.inr (List.mem_cons_self _ _)
        · exact Or.inl hq
      · exact Or.inr (List.mem_cons_of_mem _ hl)

theorem update_queue_hist (lcdOn oledOn : Bool) (st : MState) (ns : List AircraftEntry) :
    (update_new_aircrafts_queue lcdOn oledOn st ns).hist = st.hist := by
  unfold update_new_aircrafts_queue
  by_cases hn : ns.isEmpty
  · rw [if_pos hn]
  · rw [if_neg hn]; exact pushBatch_hist _ _ _ _ _ _ _

theorem update_queue_console_mem {lcdOn oledOn : Bool} {st : MState}
    {ns : List AircraftEntry} {a : AircraftEntry}
    (ha : a ∈ (update_new_aircrafts_queue lcdOn oledOn st ns).console_queue) :
    a ∈ st.console_queue ∨ a ∈ ns := by
  unfold update_new_aircrafts_queue at ha
  by_cases hn : ns.isEmpty
  · rw [if_pos hn] at ha; exact Or.inl ha
  · rw [if_neg hn] at ha; exact pushBatch_console_mem ha

theorem update_queue_lcd_mem {lcdOn oledOn : Bool} {st : MState}
    {ns : List AircraftEntry} {a : AircraftEntry}
    (ha : a ∈ (update_new_aircrafts_queue lcdOn oledOn st ns).lcd_queue) :
    a ∈ st.lcd_queue ∨ a ∈ ns := by
  unfold update_new_aircrafts_queue at ha
  by_cases hn : ns.isEmpty
  · rw [if_pos hn] at ha; exact Or.inl ha
  · rw [if_neg hn] at ha; exact pushBatch_lcd_mem ha

theorem update_queue_oled_mem {lcdOn oledOn : Bool} {st : MState}
    {ns : List AircraftEntry} {a : AircraftEntry}
    (ha : a ∈ (update_new_aircrafts_queue lcdOn oledOn st ns).oled_queue) :
    a ∈ st.oled_queue ∨ a ∈ ns := by
  unfold update_new_aircrafts_queue at ha
  by_cases hn : ns.isEmpty
  · rw [if_pos hn] at ha; exact Or.inl ha
  · rw [if_neg hn] at ha; exact pushBatch_oled_mem ha

theorem process_cycle_inv {lcdOn oledOn : Bool} {now : Nat} {st : MState}
    {d : RawData} {st' : MState}
    (hp : process_cycle lcdOn oledOn now st (some d) = .ok st') :
    ∃ ns es h1 h3 removed,
      get_new_and_existing_aircrafts st.hist d = .ok (ns, es) ∧
      create_all now st.hist ns = .ok h1 ∧
      cleanup_old_aircrafts now (update_all now h1 es) es = (h3, removed) ∧
      st' = update_new_aircrafts_queue lcdOn oledOn
        (cleanup_queues_for_removed_aircraft removed { st with hist := h3 }) ns := by
  simp only [process_cycle] at hp
  cases hg : get_new_and_existing_aircrafts st.hist d with
  | error e => rw [hg, except_bind_err] at hp; cases hp
  | ok p =>
    obtain ⟨ns, es⟩ := p
    rw [hg, except_bind_ok] at hp
    unfold update_aircraft_history at hp
    cases hc1 : create_all now st.hist ns with
    | error e =>
      rw [hc1, except_bind_err, except_bind_err] at hp
      cases hp
    | ok h1 =>
      rw [hc1, except_bind_ok] at hp
      dsimp only at hp
      rcases hcl : cleanup_old_aircrafts now (update_all now h1 es) es with ⟨h3, removed⟩
      rw [hcl] at hp
      simp only [except_pure, except_bind_ok] at hp
      injection hp with hp
      exact ⟨ns, es, h1, h3, removed, rfl, hc1, hcl, hp.symm⟩

/-! ### Further shared helpers -/

theorem get_new_some (h : History) (l : List AircraftEntry) :
    get_new_and_existing_aircrafts h ⟨some l⟩ = classify_list h l := rfl

theorem mem_set {h : History} {k x : String} {v w : AircraftInfo}
    (hm : (x, w) ∈ h.set k v) : (x, w) ∈ h ∨ (x = k ∧ w = v) := by
  induction h with
  | nil =>
    rw [set_nil] at hm
    rcases List.mem_singleton.mp hm with heq
    exact Or.inr ⟨congrArg Prod.fst heq, congrArg Prod.snd heq⟩
  | cons p rest ih =>
    rw [set_cons] at hm
    by_cases hpk : p.1 = k
    · rw [if_pos (by simp [hpk])] at hm
      rcases List.mem_cons.mp hm with heq | htl
      · exact Or.inr ⟨congrArg Prod.fst heq, congrArg Prod.snd heq⟩
      · exact Or.inl (List.mem_cons_of_mem _ htl)
    · rw [if_neg (by simp [hpk])] at hm
      rcases List.mem_cons.mp hm with heq | htl
      · exact Or.inl (heq ▸ List.mem_cons_self _ _)
      · rcases ih htl with hin | hkv
        · exact Or.inl (List.mem_cons_of_mem _ hin)
        · exact Or.inr hkv

theorem lookup_filter_key (h : History) (f : String → Bool) (x : String)
    (hx : f x = true) :
    History.lookup (h.filter (fun p => f p.1)) x = h.lookup x := by
  induction h with
  | nil => rfl
  | cons p rest ih =>
    rw [List.filter_cons]
    by_cases hpx : p.1 = x
    · subst hpx
      rw [if_pos (by simpa using hx), lookup_cons, lookup_cons]
      simp
    · have hbx : (p.1 == x) = false := by simpa using hpx
      cases hf : f p.1 with
      | true =>
        rw [if_pos rfl, lookup_cons, hbx, lookup_cons, hbx]
        simp only [Bool.false_eq_true, if_false]
        exact ih
      | false =>
        simp only [Bool.false_eq_true, if_false]
        rw [ih, lookup_cons, hbx]
        simp

theorem set_containsKey_of_contains {h : History} {k : String} (v : AircraftInfo)
    (hc : h.containsKey k = true) (y : String) :
    (h.set k v).containsKey y = h.containsKey y := by
  rw [set_containsKey]
  cases hyk : y == k with
  | false => simp
  | true =>
    have : y = k := beq_iff_eq.mp hyk
    subst this
    rw [hc]
    simp

theorem truthyHexOf_none_iff {a : AircraftEntry} :
    truthyHexOf a = none ↔ truthyHex a = false := by
  unfold truthyHexOf truthyHex
  cases a.hex with
  | none => simp
  | some s =>
    by_cases hs : s = ""
    · subst hs; simp
    · have : (s == "") = false := by simpa using hs
      simp [this]

theorem create_all_ok_of_flightOk {now : Nat} {h : History} {l : List AircraftEntry}
    (hf : ∀ a ∈ l, flightOkB a = true) :
    ∃ h', create_all now h l = .ok h' := by
  induction l generalizing h with
  | nil => exact ⟨h, rfl⟩
  | cons a rest ih =>
    have hfa : flightOkB a = true := hf a (List.mem_cons_self _ _)
    have hfr : ∀ b ∈ rest, flightOkB b = true := fun b hb => hf b (List.mem_cons_of_mem _ hb)
    rw [create_all]
    by_cases ht : truthyHex a = false
    · have h1 : create_aircraft_info now h a = .ok h := by
        unfold create_aircraft_info; rw [if_pos ht]
      rw [h1, except_bind_ok]
      exact ih hfr
    · have h1 : create_aircraft_info now h a =
          .ok (h.set (hexKey a) ⟨now, now,
            pystrip (match a.flight.getD (.str "") with | .str s => s | _ => ""),
            newPositions now a⟩) := by
        unfold create_aircraft_info
        rw [if_neg ht, stripFlight_of_flightOk hfa, except_bind_ok]
        rfl
      rw [h1, except_bind_ok]
      exact ih hfr

theorem classify_exist_of_mem {h : History} {l ns es : List AircraftEntry}
    (hc : classify_list h l = .ok (ns, es)) :
    ∀ a ∈ l, truthyHex a = true → validB a = true →
      h.containsKey (hexKey a) = true → a ∈ es := by
  induction l generalizing ns es with
  | nil => intro a ha; cases ha
  | cons b rest ih =>
    rw [classify_list] at hc
    intro a ha hta hva hck
    by_cases ht : truthyHex b = false
    · rw [if_pos ht] at hc
      rcases List.mem_cons.mp ha with rfl | ha
      · rw [hta] at ht; cases ht
      · exact ih hc a ha hta hva hck
    · rw [if_neg ht] at hc
      cases hv : is_valid_aircraft b with
      | error e => rw [hv, except_bind_err] at hc; cases hc
      | ok valid =>
        rw [hv, except_bind_ok] at hc
        by_cases hvf : valid = false
        · rw [if_pos hvf] at hc
          rcases List.mem_cons.mp ha with rfl | ha
          · obtain ⟨_, hvb⟩ := is_valid_ok_true hv
            rw [hva] at hvb
            rw [← hvb] at hvf
            cases hvf
          · exact ih hc a ha hta hva hck
        · rw [if_neg hvf] at hc
          cases hrec : classify_list h rest with
          | error e => rw [hrec, except_bind_err] at hc; cases hc
          | ok p =>
            obtain ⟨ns2, es2⟩ := p
            rw [hrec, except_bind_ok] at hc
            rcases List.mem_cons.mp ha with rfl | ha
            · rw [hck] at hc
              simp only [if_true] at hc
              injection hc with hc
              injection hc with hns hes
              subst hes
              exact List.mem_cons_self _ _
            · have hmem := ih hrec a ha hta hva hck
              cases hck2 : History.containsKey h (hexKey b) with
              | true =>
                rw [hck2] at hc
                simp only [if_true] at hc
                injection hc with hc
                injection hc with hns hes
                subst hes
                exact List.mem_cons_of_mem _ hmem
              | false =>
                rw [hck2] at hc
                simp only [Bool.false_eq_true, if_false] at hc
                injection hc with hc
                injection hc with hns hes
                subst hes
                exact hmem

theorem cleanup_queues_mem {removed : List String} {st : MState} {a : AircraftEntry}
    (ha : a ∈ (cleanup_queues_for_removed_aircraft removed st).console_queue ∨
          a ∈ (cleanup_queues_for_removed_aircraft removed st).lcd_queue ∨
          a ∈ (cleanup_queues_for_removed_aircraft removed st).oled_queue) :
    (a ∈ st.console_queue ∨ a ∈ st.lcd_queue ∨ a ∈ st.oled_queue) ∧
      (truthyHex a = true → removed.contains (hexKey a) = false) := by
  unfold cleanup_queues_for_removed_aircraft at ha
  by_cases hr : removed.isEmpty
  · rw [if_pos hr] at ha
    have : removed = [] := List.isEmpty_iff.mp hr
    subst this
    exact ⟨ha, fun _ => rfl⟩
  · rw [if_neg hr] at ha
    rcases ha with ha | ha | ha
    · obtain ⟨hq, hh⟩ := purgeQueue_mem ha
      exact ⟨Or.inl hq, hh⟩
    · obtain ⟨hq, hh⟩ := purgeQueue_mem ha
      exact ⟨Or.inr (Or.inl hq), hh⟩
    · obtain ⟨hq, hh⟩ := purgeQueue_mem ha
      exact ⟨Or.inr (Or.inr hq), hh⟩

theorem cycle_shape {lcdOn oledOn : Bool} {now : Nat} {st : MState}
    {l ns es : List AircraftEntry} {st' : MState}
    (hcl : classify_list st.hist l = .ok (ns, es))
    (hp : process_cycle lcdOn oledOn now st (some ⟨some l⟩) = .ok st') :
    ∃ h1, create_all now st.hist ns = .ok h1 ∧
      st'.hist = (cleanup_old_aircrafts now (update_all now h1 es) es).1 := by
  obtain ⟨ns2, es2, h1, h3, removed, hg, hc1, hclean, hst⟩ := process_cycle_inv hp
  rw [get_new_some, hcl] at hg
  injection hg with hg
  injection hg with hg1 hg2
  subst hg1
  subst hg2
  refine ⟨h1, hc1, ?_⟩
  rw [hst, update_queue_hist, cleanup_queues_hist, hclean]

theorem hist_nodup {now : Nat} {h h1 : History} {ns es : List AircraftEntry}
    (hc1 : create_all now h ns = .ok h1) (hnd : h.keys.Nodup) :
    ((cleanup_old_aircrafts now (update_all now h1 es) es).1).keys.Nodup :=
  cleanup_keys_nodup (update_all_keys_nodup (create_all_keys_nodup hc1 hnd))

theorem hist_h2_lastseen_now {now : Nat} {h h1 : History} {l ns es : List AircraftEntry}
    (hcl : classify_list h l = .ok (ns, es))
    (hc1 : create_all now h ns = .ok h1)
    {a : AircraftEntry} (ha : a ∈ ns) :
    ∃ i, (update_all now h1 es).lookup (hexKey a) = some i ∧ i.last_seen = now := by
  obtain ⟨_, hta, _, _, hck⟩ := classify_mem_new hcl a ha
  have hcont : h1.containsKey (hexKey a) = true := create_all_contains_of_mem hc1 ha hta
  refine update_all_lastseen_now ?_
  rcases create_all_lookup_now hc1 (hexKey a) with hu | ⟨f, ps, hnow⟩
  · exfalso
    have h0 : (h.lookup (hexKey a)).isSome = false := by
      rw [lookup_isSome, hck]
    have h1s : (h1.lookup (hexKey a)).isSome = true := by
      rw [lookup_isSome, hcont]
    rw [hu, h0] at h1s
    cases h1s
  · exact ⟨_, hnow, rfl⟩

theorem hist_new_inserted {lcdOn oledOn : Bool} {now : Nat} {st : MState}
    {l ns es : List AircraftEntry} {st' : MState}
    (hnd : st.hist.keys.Nodup)
    (hcl : classify_list st.hist l = .ok (ns, es))
    (hp : process_cycle lcdOn oledOn now st (some ⟨some l⟩) = .ok st')
    {a : AircraftEntry} (ha : a ∈ ns) :
    st'.hist.containsKey (hexKey a) = true := by
  obtain ⟨h1, hc1, hh⟩ := cycle_shape hcl hp
  obtain ⟨_, hta, _, _, hck⟩ := classify_mem_new hcl a ha
  have hcont1 : h1.containsKey (hexKey a) = true := create_all_contains_of_mem hc1 ha hta
  have hcont2 : (update_all now h1 es).containsKey (hexKey a) = true := by
    rw [update_all_containsKey]; exact hcont1
  rw [hh, cleanup_fst_containsKey, hcont2, Bool.true_and, Bool.not_eq_true']
  cases hrm : ((cleanup_old_aircrafts now (update_all now h1 es) es).2).contains (hexKey a) with
  | false => rfl
  | true =>
    exfalso
    have hmem := (list_contains_iff _ _).mp hrm
    obtain ⟨info, hpr, hstale⟩ := (mem_cleanup_removed _ _ _ _).mp hmem
    have hnd2 : ((update_all now h1 es).keys).Nodup :=
      update_all_keys_nodup (create_all_keys_nodup hc1 hnd)
    obtain ⟨i, hlook, hlast⟩ := hist_h2_lastseen_now hcl hc1 ha
    have : info = i := by
      have := lookup_eq_of_nodup hnd2 hpr
      rw [this] at hlook
      injection hlook
    subst this
    obtain ⟨_, hlt⟩ := (staleTest_iff _ _ _).mp hstale
    rw [hlast, Nat.sub_self] at hlt
    exact absurd hlt (by decide)

theorem hist_untouched_lookup {now : Nat} {h h1 : History} {l ns es : List AircraftEntry}
    (hcl : classify_list h l = .ok (ns, es))
    (hc1 : create_all now h ns = .ok h1)
    {x : String} (hx : h.containsKey x = true)
    (hes : ((es.filterMap truthyHexOf).contains x) = false) :
    (update_all now h1 es).lookup x = h.lookup x := by
  have hns : ∀ a ∈ ns, truthyHex a = true → hexKey a ≠ x := by
    intro a ha _ hkx
    obtain ⟨_, _, _, _, hck⟩ := classify_mem_new hcl a ha
    rw [hkx, hx] at hck
    cases hck
  have hesx : ∀ a ∈ es, truthyHex a = true → hexKey a ≠ x := by
    intro a ha hta hkx
    have : x ∈ es.filterMap truthyHexOf := mem_currentHexes.mpr ⟨a, ha, hta, hkx⟩
    rw [(list_contains_iff _ _).mpr this] at hes
    cases hes
  rw [update_all_lookup_unchanged hesx, create_all_lookup_unchanged hc1 hns]

theorem hist_removed_iff {lcdOn oledOn : Bool} {now : Nat} {st : MState}
    {l ns es : List AircraftEntry} {st' : MState}
    (hnd : st.hist.keys.Nodup)
    (hcl : classify_list st.hist l = .ok (ns, es))
    (hp : process_cycle lcdOn oledOn now st (some ⟨some l⟩) = .ok st')
    {x : String} (hx : st.hist.containsKey x = true) :
    (st'.hist.containsKey x = false ↔
      ((es.filterMap truthyHexOf).contains x = false ∧
        ∃ i, st.hist.lookup x = some i ∧ 300 < now - i.last_seen)) := by
  obtain ⟨h1, hc1, hh⟩ := cycle_shape hcl hp
  have hcont2 : (update_all now h1 es).containsKey x = true := by
    rw [update_all_containsKey]
    exact create_all_contains_mono hc1 hx
  have hnd2 : ((update_all now h1 es).keys).Nodup :=
    update_all_keys_nodup (create_all_keys_nodup hc1 hnd)
  rw [hh, cleanup_fst_containsKey, hcont2, Bool.true_and, Bool.not_eq_false']
  constructor
  · intro hrm
    have hmem := (list_contains_iff _ _).mp hrm
    obtain ⟨info, hpr, hstale⟩ := (mem_cleanup_removed _ _ _ _).mp hmem
    obtain ⟨hcur, hlt⟩ := (staleTest_iff _ _ _).mp hstale
    refine ⟨hcur, info, ?_, hlt⟩
    have hlook2 : (update_all now h1 es).lookup x = some info :=
      lookup_eq_of_nodup hnd2 hpr
    rw [← hist_untouched_lookup hcl hc1 hx hcur]
    exact hlook2
  · rintro ⟨hcur, i, hlook, hlt⟩
    have hlook2 : (update_all now h1 es).lookup x = some i := by
      rw [hist_untouched_lookup hcl hc1 hx hcur]
      exact hlook
    have hpr : (x, i) ∈ update_all now h1 es := lookup_mem hlook2
    refine (list_contains_iff _ _).mpr ((mem_cleanup_removed _ _ _ _).mpr ⟨i, hpr, ?_⟩)
    exact (staleTest_iff _ _ _).mpr ⟨hcur, hlt⟩

theorem pushBatch_console_eq (lcdOn oledOn : Bool) (cset lset oset : List String)
    (st : MState) (l : List AircraftEntry) :
    (pushBatch lcdOn oledOn cset lset oset st l).console_queue =
      st.console_queue ++
        l.filter (fun a => truthyHex a && !(cset.contains (hexKey a))) := by
  induction l generalizing st with
  | nil => simp [pushBatch]
  | cons a rest ih =>
    rw [pushBatch, List.filter_cons]
    by_cases ht : truthyHex a = false
    · rw [if_pos ht, ih]
      simp [ht]
    · have htt : truthyHex a = true := by simpa using ht
      rw [if_neg ht, ih]
      dsimp only
      cases hcs : cset.contains (hexKey a) with
      | true => simp [htt, hcs]
      | false => simp [htt, hcs]

theorem pushBatch_lcd_eq (lcdOn oledOn : Bool) (cset lset oset : List String)
    (st : MState) (l : List AircraftEntry) :
    (pushBatch lcdOn oledOn cset lset oset st l).lcd_queue =
      st.lcd_queue ++
        l.filter (fun a => truthyHex a && (lcdOn && !(lset.contains (hexKey a)))) := by
  induction l generalizing st with
  | nil => simp [pushBatch]
  | cons a rest ih =>
    rw [pushBatch, List.filter_cons]
    by_cases ht : truthyHex a = false
    · rw [if_pos ht, ih]
      simp [ht]
    · have htt : truthyHex a = true := by simpa using ht
      rw [if_neg ht, ih]
      dsimp only
      cases hon : lcdOn with
      | false => simp [htt, hon]
      | true =>
        cases hcs : lset.contains (hexKey a) with
        | true => simp [htt, hcs, hon]
        | false => simp [htt, hcs, hon]

theorem pushBatch_oled_eq (lcdOn oledOn : Bool) (cset lset oset : List String)
    (st : MState) (l : List AircraftEntry) :
    (pushBatch lcdOn oledOn cset lset oset st l).oled_queue =
      st.oled_queue ++
        l.filter (fun a => truthyHex a && (oledOn && !(oset.contains (hexKey a)))) := by
  induction l generalizing st with
  | nil => simp [pushBatch]
  | cons a rest ih =>
    rw [pushBatch, List.filter_cons]
    by_cases ht : truthyHex a = false
    · rw [if_pos ht, ih]
      simp [ht]
    · have htt : truthyHex a = true := by simpa using ht
      rw [if_neg ht, ih]
      dsimp only
      cases hon : oledOn with
      | false => simp [htt, hon]
      | true =>
        cases hcs : oset.contains (hexKey a) with
        | true => simp [htt, hcs, hon]
        | false => simp [htt, hcs, hon]

theorem update_queue_console_eq (lcdOn oledOn : Bool) (st : MState)
    (ns : List AircraftEntry) :
    (update_new_aircrafts_queue lcdOn oledOn st ns).console_queue =
      st.console_queue ++
        ns.filter (fun a =>
          truthyHex a && !((queueHexes st.console_queue).contains (hexKey a))) := by
  unfold update_new_aircrafts_queue
  by_cases hn : ns.isEmpty
  · rw [if_pos hn]
    have : ns = [] := List.isEmpty_iff.mp hn
    subst this
    simp
  · rw [if_neg hn]
    exact pushBatch_console_eq _ _ _ _ _ _ _

theorem update_queue_lcd_eq (lcdOn oledOn : Bool) (st : MState)
    (ns : List AircraftEntry) :
    (update_new_aircrafts_queue lcdOn oledOn st ns).lcd_queue =
      st.lcd_queue ++
        ns.filter (fun a =>
          truthyHex a && (lcdOn && !((queueHexes st.lcd_queue).contains (hexKey a)))) := by
  unfold update_new_aircrafts_queue
  by_cases hn : ns.isEmpty
  · rw [if_pos hn]
    have : ns = [] := List.isEmpty_iff.mp hn
    subst this
    simp
  · rw [if_neg hn]
    exact pushBatch_lcd_eq _ _ _ _ _ _ _

theorem update_queue_oled_eq (lcdOn oledOn : Bool) (st : MState)
    (ns : List AircraftEntry) :
    (update_new_aircrafts_queue lcdOn oledOn st ns).oled_queue =
      st.oled_queue ++
        ns.filter (fun a =>
          truthyHex a && (oledOn && !((queueHexes st.oled_queue).contains (hexKey a)))) := by
  unfold update_new_aircrafts_queue
  by_cases hn : ns.isEmpty
  · rw [if_pos hn]
    have : ns = [] := List.isEmpty_iff.mp hn
    subst this
    simp
  · rw [if_neg hn]
    exact pushBatch_oled_eq _ _ _ _ _ _ _

theorem check_scan_spec (now : Nat) (h0 : History) :
    ∀ (l : List AircraftEntry) (h : History),
      (∀ a ∈ l, flightOkB a = true) →
      ((l.filterMap truthyHexOf).Nodup) →
      (∀ x ∈ l.filterMap truthyHexOf, h.containsKey x = h0.containsKey x) →
      ∃ h2 cur, check_scan now h l = .ok (l.filter (isNewB h0), h2, cur) := by
  intro l
  induction l with
  | nil => intro h _ _ _; exact ⟨h, [], rfl⟩
  | cons a rest ih =>
    intro h hf hnd hkeys
    have hfa : flightOkB a = true := hf a (List.mem_cons_self _ _)
    have hfr : ∀ b ∈ rest, flightOkB b = true := fun b hb => hf b (List.mem_cons_of_mem _ hb)
    rw [check_scan, List.filter_cons]
    by_cases ht : truthyHex a = false
    · have hto : truthyHexOf a = none := truthyHexOf_none_iff.mpr ht
      rw [List.filterMap_cons, hto] at hnd hkeys
      have hNew : isNewB h0 a = false := by simp [isNewB, ht]
      rw [if_pos ht, hNew]
      simp only [Bool.false_eq_true, if_false]
      exact ih h hfr hnd hkeys
    · have htt : truthyHex a = true := by simpa using ht
      have hto : truthyHexOf a = some (hexKey a) := truthyHexOf_eq_some.mpr ⟨htt, rfl⟩
      rw [List.filterMap_cons, hto] at hnd hkeys
      rw [List.nodup_cons] at hnd
      obtain ⟨hxa, hndr⟩ := hnd
      have hkx : h.containsKey (hexKey a) = h0.containsKey (hexKey a) :=
        hkeys _ (List.mem_cons_self _ _)
      have hkrest : ∀ x ∈ rest.filterMap truthyHexOf, h.containsKey x = h0.containsKey x :=
        fun x hx => hkeys x (List.mem_cons_of_mem _ hx)
      rw [if_neg ht]
      cases hc0 : History.containsKey h0 (hexKey a) with
      | true =>
        have hcx : h.containsKey (hexKey a) = true := by rw [hkx, hc0]
        rw [if_pos hcx]
        cases hl : h.lookup (hexKey a) with
        | none =>
          dsimp only
          obtain ⟨h2, cur, hscan⟩ := ih h hfr hndr hkrest
          rw [hscan, except_bind_ok]
          have hNew : isNewB h0 a = false := by simp [isNewB, hc0]
          rw [hNew]
          simp only [Bool.false_eq_true, if_false]
          exact ⟨h2, hexKey a :: cur, rfl⟩
        | some info =>
          dsimp only
          have hkr : ∀ x ∈ rest.filterMap truthyHexOf,
              History.containsKey
                (h.set (hexKey a)
                  { info with last_seen := now, positions := info.positions ++ newPositions now a }) x =
                h0.containsKey x := by
            intro x hx
            rw [set_containsKey_of_contains _ hcx]
            exact hkrest x hx
          obtain ⟨h2, cur, hscan⟩ := ih _ hfr hndr hkr
          rw [hscan, except_bind_ok]
          have hNew : isNewB h0 a = false := by simp [isNewB, hc0]
          rw [hNew]
          simp only [Bool.false_eq_true, if_false]
          exact ⟨h2, hexKey a :: cur, rfl⟩
      | false =>
        have hcx : h.containsKey (hexKey a) = false := by rw [hkx, hc0]
        rw [if_neg (by simp [hcx])]
        obtain ⟨f, hsf⟩ : ∃ f, stripFlight a = .ok f := ⟨_, stripFlight_of_flightOk hfa⟩
        rw [hsf, except_bind_ok]
        have hkr : ∀ x ∈ rest.filterMap truthyHexOf,
            History.containsKey
              (h.set (hexKey a) ⟨now, now, f, newPositions now a⟩) x =
              h0.containsKey x := by
          intro x hx
          have hxne : (x == hexKey a) = false :=
            beq_false_of_ne (fun he => hxa (he ▸ hx))
          rw [set_containsKey, hxne, Bool.or_false]
          exact hkrest x hx
        obtain ⟨h2, cur, hscan⟩ := ih _ hfr hndr hkr
        dsimp only
        rw [hscan, except_bind_ok]
        have hvB : validB a = !(f == "") := (flightOk_of_stripFlight_ok hsf).2
        have hNew : isNewB h0 a = validB a := by
          simp [isNewB, htt, hc0]
        cases hfe : f == "" with
        | true =>
          have hNf : isNewB h0 a = false := by rw [hNew, hvB, hfe]; rfl
          refine ⟨h2, hexKey a :: cur, ?_⟩
          rw [hNf]
          simp [except_pure]
        | false =>
          have hNt : isNewB h0 a = true := by rw [hNew, hvB, hfe]; rfl
          refine ⟨h2, hexKey a :: cur, ?_⟩
          rw [hNt]
          simp [except_pure]

theorem process_ok_of_classify {lcdOn oledOn : Bool} {now : Nat} {st : MState}
    {l ns es : List AircraftEntry}
    (hcl : classify_list st.hist l = .ok (ns, es))
    (hfo : ∀ a ∈ ns, flightOkB a = true) :
    ∃ st', process_cycle lcdOn oledOn now st (some ⟨some l⟩) = .ok st' := by
  obtain ⟨h1, hc1⟩ := @create_all_ok_of_flightOk now st.hist ns hfo
  cases hpc : process_cycle lcdOn oledOn now st (some ⟨some l⟩) with
  | ok st' => exact ⟨st', rfl⟩
  | error e =>
    exfalso
    simp only [process_cycle] at hpc
    rw [get_new_some, hcl, except_bind_ok] at hpc
    unfold update_aircraft_history at hpc
    rw [hc1, except_bind_ok] at hpc
    dsimp only at hpc
    rcases hclean : cleanup_old_aircrafts now (update_all now h1 es) es with ⟨h3, removed⟩
    rw [hclean] at hpc
    simp only [except_pure, except_bind_ok] at hpc
    cases hpc

theorem cleanup_lookup_of_not_removed {now : Nat} {h : History}
    {cur : List AircraftEntry} {x : String}
    (hnr : ((cleanup_old_aircrafts now h cur).2).contains x = false) :
    History.lookup (cleanup_old_aircrafts now h cur).1 x = h.lookup x := by
  simp only [cleanup_old_aircrafts] at hnr ⊢
  refine lookup_filter_key h
    (fun k =>
      !((List.map (fun q => q.1)
          (List.filter (staleTest now (List.filterMap truthyHexOf cur)) h)).contains k)) x ?_
  dsimp only
  rw [hnr]
  rfl

theorem update_queue_mem_any {lcdOn oledOn : Bool} {st : MState}
    {ns : List AircraftEntry} {a : AircraftEntry}
    (ha : a ∈ (update_new_aircrafts_queue lcdOn oledOn st ns).console_queue ∨
          a ∈ (update_new_aircrafts_queue lcdOn oledOn st ns).lcd_queue ∨
          a ∈ (update_new_aircrafts_queue lcdOn oledOn st ns).oled_queue) :
    (a ∈ st.console_queue ∨ a ∈ st.lcd_queue ∨ a ∈ st.oled_queue) ∨ a ∈ ns := by
  rcases ha with ha | ha | ha
  · rcases update_queue_console_mem ha with h | h
    · exact Or.inl (Or.inl h)
    · exact Or.inr h
  · rcases update_queue_lcd_mem ha with h | h
    · exact Or.inl (Or.inr (Or.inl h))
    · exact Or.inr h
  · rcases update_queue_oled_mem ha with h | h
    · exact Or.inl (Or.inr (Or.inr h))
    · exact Or.inr h

theorem step_queueInv_some {lcdOn oledOn : Bool} {now : Nat} {st : MState}
    {l : List AircraftEntry} {st' : MState}
    (hnd : st.hist.keys.Nodup)
    (hinv : ∀ a, (a ∈ st.console_queue ∨ a ∈ st.lcd_queue ∨ a ∈ st.oled_queue) →
      truthyHex a = true ∧ st.hist.containsKey (hexKey a) = true)
    (hp : process_cycle lcdOn oledOn now st (some ⟨some l⟩) = .ok st') :
    st'.hist.keys.Nodup ∧
    ∀ a, (a ∈ st'.console_queue ∨ a ∈ st'.lcd_queue ∨ a ∈ st'.oled_queue) →
      truthyHex a = true ∧ st'.hist.containsKey (hexKey a) = true := by
  obtain ⟨ns, es, h1, h3, removed, hg, hc1, hclean, hst⟩ := process_cycle_inv hp
  rw [get_new_some] at hg
  have hh : st'.hist = (cleanup_old_aircrafts now (update_all now h1 es) es).1 := by
    rw [hst, update_queue_hist, cleanup_queues_hist, hclean]
  refine ⟨hh ▸ hist_nodup hc1 hnd, ?_⟩
  intro a ha
  rw [hst] at ha
  rcases update_queue_mem_any ha with hq | hns
  · obtain ⟨hq2, hnr⟩ := cleanup_queues_mem hq
    dsimp only at hq2
    obtain ⟨hta, hck⟩ := hinv a hq2
    refine ⟨hta, ?_⟩
    rw [hh, cleanup_fst_containsKey, update_all_containsKey]
    have hcr : ((cleanup_old_aircrafts now (update_all now h1 es) es).2) = removed := by
      rw [hclean]
    rw [hcr, hnr hta, create_all_contains_mono hc1 hck]
    rfl
  · obtain ⟨_, hta, _, _, _⟩ := classify_mem_new hg a hns
    exact ⟨hta, hist_new_inserted hnd hg hp hns⟩

theorem step_queueInv {lcdOn oledOn : Bool} {now : Nat} {st : MState}
    {d : Option RawData}
    (hnd : st.hist.keys.Nodup)
    (hinv : ∀ a, (a ∈ st.console_queue ∨ a ∈ st.lcd_queue ∨ a ∈ st.oled_queue) →
      truthyHex a = true ∧ st.hist.containsKey (hexKey a) = true) :
    (monitor_step lcdOn oledOn now st d).hist.keys.Nodup ∧
    ∀ a, (a ∈ (monitor_step lcdOn oledOn now st d).console_queue ∨
          a ∈ (monitor_step lcdOn oledOn now st d).lcd_queue ∨
          a ∈ (monitor_step lcdOn oledOn now st d).oled_queue) →
      truthyHex a = true ∧
      (monitor_step lcdOn oledOn now st d).hist.containsKey (hexKey a) = true := by
  cases d with
  | none => exact ⟨hnd, hinv⟩
  | some dd =>
    obtain ⟨af⟩ := dd
    cases af with
    | none =>
      have heq : monitor_step lcdOn oledOn now st (some ⟨none⟩) =
          monitor_step lcdOn oledOn now st (some ⟨some []⟩) := rfl
      rw [heq]
      unfold monitor_step
      cases hpc : process_cycle lcdOn oledOn now st (some ⟨some []⟩) with
      | error e => exact ⟨hnd, hinv⟩
      | ok st' => exact step_queueInv_some hnd hinv hpc
    | some l =>
      unfold monitor_step
      cases hpc : process_cycle lcdOn oledOn now st (some ⟨some l⟩) with
      | error e => exact ⟨hnd, hinv⟩
      | ok st' => exact step_queueInv_some hnd hinv hpc

theorem run_queueInv (lcdOn oledOn : Bool) (trace : List (Nat × Option RawData)) :
    ∀ st : MState, st.hist.keys.Nodup →
      (∀ a, (a ∈ st.console_queue ∨ a ∈ st.lcd_queue ∨ a ∈ st.oled_queue) →
        truthyHex a = true ∧ st.hist.containsKey (hexKey a) = true) →
      ((monitor_run lcdOn oledOn st trace).hist.keys.Nodup ∧
       ∀ a, (a ∈ (monitor_run lcdOn oledOn st trace).console_queue ∨
             a ∈ (monitor_run lcdOn oledOn st trace).lcd_queue ∨
             a ∈ (monitor_run lcdOn oledOn st trace).oled_queue) →
         truthyHex a = true ∧
         (monitor_run lcdOn oledOn st trace).hist.containsKey (hexKey a) = true) := by
  induction trace with
  | nil => intro st hnd hinv; exact ⟨hnd, hinv⟩
  | cons p rest ih =>
    intro st hnd hinv
    obtain ⟨now, d⟩ := p
    obtain ⟨hnd2, hinv2⟩ := step_queueInv hnd hinv
    exact ih _ hnd2 hinv2

/-! ### Claim theorems -/

/-- C1: in any poll cycle, (i) every entry classified as new has its id
inserted into the roster by apply and it survives that same cycle's expiry,
(ii) an id already tracked in the roster is never classified as new,
(iii) a tracked entry reappearing with a valid flight is classified as
existing, and (iv) a tracked id leaves the roster during a cycle only by
expiry: it is absent from the hexes of the valid existing entries and its
last_seen is more than 300 seconds old.  Hence over every interleaving of
snapshots — duplicated ids included — an id classified new is classified
existing by every later snapshot containing it until it expires. -/
theorem C1_new_classified_once_until_expiry
    {lcdOn oledOn : Bool} {now : Nat} {st : MState} {l ns es : List AircraftEntry}
    {st' : MState}
    (hnd : st.hist.keys.Nodup)
    (hcl : get_new_and_existing_aircrafts st.hist ⟨some l⟩ = .ok (ns, es))
    (hp : process_cycle lcdOn oledOn now st (some ⟨some l⟩) = .ok st') :
    (∀ a ∈ ns, st'.hist.containsKey (hexKey a) = true) ∧
    (∀ x, st.hist.containsKey x = true → ∀ a ∈ ns, hexKey a ≠ x) ∧
    (∀ a ∈ l, truthyHex a = true → validB a = true →
      st.hist.containsKey (hexKey a) = true → a ∈ es) ∧
    (∀ x, st.hist.containsKey x = true → st'.hist.containsKey x = false →
      (es.filterMap truthyHexOf).contains x = false ∧
      ∃ i, st.hist.lookup x = some i ∧ 300 < now - i.last_seen) := by
  rw [get_new_some] at hcl
  refine ⟨fun a ha => hist_new_inserted hnd hcl hp ha, ?_, classify_exist_of_mem hcl, ?_⟩
  · intro x hx a ha hkx
    obtain ⟨_, _, _, _, hck⟩ := classify_mem_new hcl a ha
    rw [hkx, hx] at hck
    cases hck
  · intro x hx hrm
    exact (hist_removed_iff hnd hcl hp hx).mp hrm

/-- C1 witness: a fresh id "A" classified new at time 7 from the empty roster
is in the roster afterwards. -/
theorem C1_witness :
    History.containsKey
      (MState.mk [("A", ⟨7, 7, "UAL1", []⟩)]
        [⟨some "A", some (.str "UAL1"), none, none⟩] [] []).hist "A" = true :=
  (@C1_new_classified_once_until_expiry false false 7 ⟨[], [], [], []⟩
      [⟨some "A", some (.str "UAL1"), none, none⟩]
      [⟨some "A", some (.str "UAL1"), none, none⟩] []
      ⟨[("A", ⟨7, 7, "UAL1", []⟩)], [⟨some "A", some (.str "UAL1"), none, none⟩], [], []⟩
      (by decide) rfl rfl).1
    ⟨some "A", some (.str "UAL1"), none, none⟩ (by decide)

/-- C2 counterexample: with an empty roster, a snapshot in which the id "A"
occurs twice yields a new-list containing BOTH occurrences; the duplicate is
not dropped, so the partition does not have at most one entry per id. -/
theorem C2_counterexample :
    get_new_and_existing_aircrafts []
        ⟨some [⟨some "A", some (.str "UAL1"), none, none⟩,
               ⟨some "A", some (.str "UAL1"), none, none⟩]⟩ =
      .ok ([⟨some "A", some (.str "UAL1"), none, none⟩,
            ⟨some "A", some (.str "UAL1"), none, none⟩], []) ∧
    2 ≤ (List.filter (fun b => hexKey b == "A")
          [(⟨some "A", some (.str "UAL1"), none, none⟩ : AircraftEntry),
           ⟨some "A", some (.str "UAL1"), none, none⟩]).length :=
  ⟨rfl, by decide⟩

/-- C2 amended: classification drops nothing: provided every flight value is a
string (otherwise it raises), it returns exactly the entries with a truthy hex
and a non-blank flight, split by roster membership, keeping every occurrence —
so an unseen id occurring twice in one snapshot yields two new entries. -/
theorem C2_amended_classification_keeps_every_occurrence
    {h : History} {l : List AircraftEntry}
    (hf : ∀ a ∈ l, flightOkB a = true) :
    get_new_and_existing_aircrafts h ⟨some l⟩ =
      .ok (l.filter (isNewB h), l.filter (isExistingB h)) := by
  rw [get_new_some]
  exact classify_eq_filter hf

/-- C2 amended witness at the duplicated snapshot. -/
theorem C2_amended_witness :
    get_new_and_existing_aircrafts []
        ⟨some [⟨some "A", some (.str "UAL1"), none, none⟩,
               ⟨some "A", some (.str "UAL1"), none, none⟩]⟩ =
      .ok (List.filter (isNewB [])
            [⟨some "A", some (.str "UAL1"), none, none⟩,
             ⟨some "A", some (.str "UAL1"), none, none⟩],
           List.filter (isExistingB [])
            [⟨some "A", some (.str "UAL1"), none, none⟩,
             ⟨some "A", some (.str "UAL1"), none, none⟩]) :=
  @C2_amended_classification_keeps_every_occurrence []
    [⟨some "A", some (.str "UAL1"), none, none⟩,
     ⟨some "A", some (.str "UAL1"), none, none⟩] (by decide)

/-- C3: starting from the initial state, after any number of complete poll
cycles every entry present in any fan-out queue (console, LCD, OLED) carries a
truthy hex that is a key of the roster history: expiry purges removed ids from
all three queues in the same cycle and ids are pushed only after insertion. -/
theorem C3_queue_ids_always_tracked (lcdOn oledOn : Bool)
    (trace : List (Nat × Option RawData)) (a : AircraftEntry)
    (ha : a ∈ (monitor_run lcdOn oledOn init_state trace).console_queue ∨
          a ∈ (monitor_run lcdOn oledOn init_state trace).lcd_queue ∨
          a ∈ (monitor_run lcdOn oledOn init_state trace).oled_queue) :
    truthyHex a = true ∧
    (monitor_run lcdOn oledOn init_state trace).hist.containsKey (hexKey a) = true := by
  refine (run_queueInv lcdOn oledOn trace init_state (by decide) ?_).2 a ha
  intro b hb
  rcases hb with hb | hb | hb <;> cases hb

/-- C3 witness: after one cycle that queued id "A", the console entry is
tracked in the roster. -/
theorem C3_witness :
    truthyHex (⟨some "A", some (.str "UAL1"), none, none⟩ : AircraftEntry) = true ∧
    (monitor_run false false init_state
        [(7, some ⟨some [⟨some "A", some (.str "UAL1"), none, none⟩]⟩)]).hist.containsKey
      (hexKey (⟨some "A", some (.str "UAL1"), none, none⟩ : AircraftEntry)) = true :=
  C3_queue_ids_always_tracked false false
    [(7, some ⟨some [⟨some "A", some (.str "UAL1"), none, none⟩]⟩)]
    ⟨some "A", some (.str "UAL1"), none, none⟩ (Or.inl (by decide))

/-- C4: a snapshot entry whose flight is missing, empty or whitespace-only is
never classified — it lands in neither the new nor the existing list — and an
untracked id all of whose snapshot occurrences are such blank entries is not
inserted into the roster by the cycle. -/
theorem C4_blank_flight_invisible
    {lcdOn oledOn : Bool} {now : Nat} {st : MState} {l ns es : List AircraftEntry}
    {st' : MState} {a : AircraftEntry} {x : String}
    (hcl : get_new_and_existing_aircrafts st.hist ⟨some l⟩ = .ok (ns, es))
    (hblank : stripFlight a = .ok "") :
    a ∉ ns ∧ a ∉ es ∧
    (st.hist.containsKey x = false →
      (∀ b ∈ l, truthyHex b = true → hexKey b = x → stripFlight b = .ok "") →
      process_cycle lcdOn oledOn now st (some ⟨some l⟩) = .ok st' →
      st'.hist.containsKey x = false) := by
  rw [get_new_some] at hcl
  have hval : validB a = false := by
    have hv2 := (flightOk_of_stripFlight_ok hblank).2
    rw [hv2]
    rfl
  refine ⟨?_, ?_, ?_⟩
  · intro hmem
    obtain ⟨_, _, _, hv, _⟩ := classify_mem_new hcl a hmem
    rw [hval] at hv
    cases hv
  · intro hmem
    obtain ⟨_, _, _, hv, _⟩ := classify_mem_exist hcl a hmem
    rw [hval] at hv
    cases hv
  · intro hx hall hp
    obtain ⟨h1, hc1, hh⟩ := cycle_shape hcl hp
    rw [hh, cleanup_fst_containsKey, update_all_containsKey]
    have h1c : h1.containsKey x = false := by
      cases hc : h1.containsKey x with
      | false => rfl
      | true =>
        exfalso
        rcases create_all_contains_sup hc1 hc with hin | ⟨b, hb, htb, hkb⟩
        · rw [hx] at hin; cases hin
        · obtain ⟨hbl, _, _, hvb, _⟩ := classify_mem_new hcl b hb
          have hsb := hall b hbl htb hkb
          have hvb2 := (flightOk_of_stripFlight_ok hsb).2
          rw [hvb2] at hvb
          exact absurd hvb (by decide)
    rw [h1c]
    rfl

/-- C4 witness: a whitespace-flight entry for untracked id "X" is neither
classified nor inserted. -/
theorem C4_witness :
    ((⟨some "X", some (.str " "), none, none⟩ : AircraftEntry) ∉ ([] : List AircraftEntry)) ∧
    ((⟨some "X", some (.str " "), none, none⟩ : AircraftEntry) ∉ ([] : List AircraftEntry)) ∧
    (History.containsKey ([] : History) "X" = false →
      (∀ b ∈ [(⟨some "X", some (.str " "), none, none⟩ : AircraftEntry)],
        truthyHex b = true → hexKey b = "X" → stripFlight b = .ok "") →
      process_cycle false false 7 ⟨[], [], [], []⟩
          (some ⟨some [⟨some "X", some (.str " "), none, none⟩]⟩) =
        .ok ⟨[], [], [], []⟩ →
      History.containsKey (MState.mk [] [] [] []).hist "X" = false) :=
  @C4_blank_flight_invisible false false 7 ⟨[], [], [], []⟩
    [⟨some "X", some (.str " "), none, none⟩] [] [] ⟨[], [], [], []⟩
    ⟨some "X", some (.str " "), none, none⟩ "X" rfl rfl

/-- C5 counterexample: a tracked id "X" whose last_seen is 301 seconds old is
removed by the cycle even though "X" is present in the snapshot — its only
occurrence has a whitespace flight, so it is not among the ids expiry checks.
The claim, which preserves every id present in the snapshot, is false. -/
theorem C5_counterexample :
    process_cycle false false 301
        ⟨[("X", ⟨0, 0, "UAL9", []⟩)], [], [], []⟩
        (some ⟨some [⟨some "X", some (.str " "), none, none⟩]⟩) =
      .ok ⟨[], [], [], []⟩ ∧
    (⟨some "X", some (.str " "), none, none⟩ : AircraftEntry).hex = some "X" ∧
    History.containsKey ([] : History) "X" = false :=
  ⟨rfl, rfl, rfl⟩

/-- C5 amended: expiry removes a tracked id exactly when it is absent from the
hexes of the EXISTING entries (tracked ids reappearing with a valid flight) and
its last_seen is strictly more than 300 seconds before now; in particular, a
tracked id reappearing with a valid flight is refreshed by apply before expiry
runs and is preserved, while one present only with a blank flight may expire. -/
theorem C5_amended_expiry_removes_exactly_stale_nonexisting
    {lcdOn oledOn : Bool} {now : Nat} {st : MState} {l ns es : List AircraftEntry}
    {st' : MState} {x : String}
    (hnd : st.hist.keys.Nodup)
    (hcl : get_new_and_existing_aircrafts st.hist ⟨some l⟩ = .ok (ns, es))
    (hp : process_cycle lcdOn oledOn now st (some ⟨some l⟩) = .ok st')
    (hx : st.hist.containsKey x = true) :
    st'.hist.containsKey x = false ↔
      ((es.filterMap truthyHexOf).contains x = false ∧
        ∃ i, st.hist.lookup x = some i ∧ 300 < now - i.last_seen) := by
  rw [get_new_some] at hcl
  exact hist_removed_iff hnd hcl hp hx

/-- C5 amended witness: id "X" last seen at time 0, absent from an empty
snapshot at time 301, is removed. -/
theorem C5_witness :
    History.containsKey (MState.mk [] [] [] []).hist "X" = false ↔
      ((List.filterMap truthyHexOf ([] : List AircraftEntry)).contains "X" = false ∧
        ∃ i, History.lookup [("X", ⟨0, 0, "UAL9", []⟩)] "X" = some i ∧
          300 < 301 - i.last_seen) :=
  @C5_amended_expiry_removes_exactly_stale_nonexisting false false 301
    ⟨[("X", ⟨0, 0, "UAL9", []⟩)], [], [], []⟩ [] [] [] ⟨[], [], [], []⟩ "X"
    (by decide) rfl rfl rfl

/-- C6 counterexample: two pushes of the same id "A" within one fan-out batch
both append: the pending-hex set is computed once before the loop, so the
console queue ends with two entries for "A", not exactly one. -/
theorem C6_counterexample :
    update_new_aircrafts_queue false false ⟨[], [], [], []⟩
        [⟨some "A", some (.str "UAL1"), none, none⟩,
         ⟨some "A", some (.str "UAL1"), none, none⟩] =
      ⟨[], [⟨some "A", some (.str "UAL1"), none, none⟩,
            ⟨some "A", some (.str "UAL1"), none, none⟩], [], []⟩ ∧
    2 ≤ (List.filter (fun b => hexKey b == "A")
          [(⟨some "A", some (.str "UAL1"), none, none⟩ : AircraftEntry),
           ⟨some "A", some (.str "UAL1"), none, none⟩]).length :=
  ⟨rfl, by decide⟩

/-- C6 amended: each enabled queue receives exactly the batch entries with a
truthy hex not pending in that queue when the batch STARTED — so a push of an
id already pending leaves the queue unchanged and, after the entry is drained
or purged, a fresh arrival with the same id is appended again, but duplicates
inside one batch are each appended.  The per-call push of the display services
(`add_aircraft`) is idempotent while the id is pending and accepts it again
once drained. -/
theorem C6_amended_push_dedupes_against_batch_start
    (lcdOn oledOn : Bool) (st : MState) (ns q : List AircraftEntry)
    (a : AircraftEntry) :
    ((update_new_aircrafts_queue lcdOn oledOn st ns).console_queue =
      st.console_queue ++ ns.filter (fun b =>
        truthyHex b && !((queueHexes st.console_queue).contains (hexKey b)))) ∧
    ((update_new_aircrafts_queue lcdOn oledOn st ns).lcd_queue =
      st.lcd_queue ++ ns.filter (fun b =>
        truthyHex b && (lcdOn && !((queueHexes st.lcd_queue).contains (hexKey b))))) ∧
    ((update_new_aircrafts_queue lcdOn oledOn st ns).oled_queue =
      st.oled_queue ++ ns.filter (fun b =>
        truthyHex b && (oledOn && !((queueHexes st.oled_queue).contains (hexKey b))))) ∧
    (truthyHex a = true → (queueHexes q).contains (hexKey a) = true →
      add_aircraft q a = q) ∧
    (truthyHex a = true → (queueHexes q).contains (hexKey a) = false →
      add_aircraft q a = q ++ [a]) := by
  refine ⟨update_queue_console_eq lcdOn oledOn st ns,
    update_queue_lcd_eq lcdOn oledOn st ns,
    update_queue_oled_eq lcdOn oledOn st ns, ?_, ?_⟩
  · intro ht hc
    unfold add_aircraft
    rw [if_neg (by rw [ht]; simp), if_pos hc]
  · intro ht hc
    unfold add_aircraft
    rw [if_neg (by rw [ht]; simp), if_neg (by rw [hc]; simp)]

/-- C6 amended witness: a pending id is not re-appended; once gone it is. -/
theorem C6_amended_witness :
    add_aircraft [⟨some "A", some (.str "UAL1"), none, none⟩]
        ⟨some "A", some (.str "UAL1"), none, none⟩ =
      [⟨some "A", some (.str "UAL1"), none, none⟩] ∧
    add_aircraft [] ⟨some "A", some (.str "UAL1"), none, none⟩ =
      [] ++ [⟨some "A", some (.str "UAL1"), none, none⟩] :=
  ⟨(C6_amended_push_dedupes_against_batch_start false false ⟨[], [], [], []⟩ []
      [⟨some "A", some (.str "UAL1"), none, none⟩]
      ⟨some "A", some (.str "UAL1"), none, none⟩).2.2.2.1 (by decide) (by decide),
   (C6_amended_push_dedupes_against_batch_start false false ⟨[], [], [], []⟩ [] []
      ⟨some "A", some (.str "UAL1"), none, none⟩).2.2.2.2 (by decide) (by decide)⟩

/-- C7: a failed (or falsy) snapshot read skips the whole cycle: the cycle body
returns the state unchanged — classification, apply, expiry and fan-out do not
touch the roster or any queue — and the loop step leaves the state intact. -/
theorem C7_read_failure_skips_cycle (lcdOn oledOn : Bool) (now : Nat) (st : MState) :
    process_cycle lcdOn oledOn now st none = .ok st ∧
    monitor_step lcdOn oledOn now st none = st :=
  ⟨rfl, rfl⟩

/-- C8 counterexample: an entry whose flight field holds JSON null makes
classification raise (AttributeError on `.strip()`), contradicting the claim
that classification never raises for any data shape. -/
theorem C8_counterexample :
    get_new_and_existing_aircrafts []
        ⟨some [⟨some "A", some .null, none, none⟩]⟩ =
      .error "AttributeError: strip is not defined on this value" := rfl

/-- C8 amended: provided every present flight value is a string (missing flight
is fine), classification, apply and expiry complete without raising, and
entries with a missing id are skipped: they appear in neither the new nor the
existing list. -/
theorem C8_amended_no_raise_when_flights_are_strings
    {lcdOn oledOn : Bool} {now : Nat} {st : MState} {l : List AircraftEntry}
    (hfl : ∀ a ∈ l, flightOkB a = true) :
    (∃ st', process_cycle lcdOn oledOn now st (some ⟨some l⟩) = .ok st') ∧
    (∀ ns es, get_new_and_existing_aircrafts st.hist ⟨some l⟩ = .ok (ns, es) →
      ∀ a ∈ l, a.hex = none → a ∉ ns ∧ a ∉ es) := by
  constructor
  · have hcl : classify_list st.hist l =
        .ok (l.filter (isNewB st.hist), l.filter (isExistingB st.hist)) :=
      classify_eq_filter hfl
    refine process_ok_of_classify hcl ?_
    intro a ha
    exact hfl a (List.mem_filter.mp ha).1
  · intro ns es hg a _ hhex
    rw [get_new_some] at hg
    constructor
    · intro hmem
      obtain ⟨_, hta, _, _, _⟩ := classify_mem_new hg a hmem
      unfold truthyHex at hta
      rw [hhex] at hta
      cases hta
    · intro hmem
      obtain ⟨_, hta, _, _, _⟩ := classify_mem_exist hg a hmem
      unfold truthyHex at hta
      rw [hhex] at hta
      cases hta

/-- C8 amended witness: a snapshot with one string-flight entry and one
missing-id entry is processed without error and the missing-id entry is
skipped. -/
theorem C8_witness :
    (∃ st', process_cycle false false 7 ⟨[], [], [], []⟩
        (some ⟨some [⟨some "A", some (.str "UAL1"), none, none⟩,
                     ⟨none, some (.str "UAL2"), none, none⟩]⟩) = .ok st') ∧
    (∀ ns es, get_new_and_existing_aircrafts (MState.mk [] [] [] []).hist
        ⟨some [⟨some "A", some (.str "UAL1"), none, none⟩,
               ⟨none, some (.str "UAL2"), none, none⟩]⟩ = .ok (ns, es) →
      ∀ a ∈ [(⟨some "A", some (.str "UAL1"), none, none⟩ : AircraftEntry),
             ⟨none, some (.str "UAL2"), none, none⟩], a.hex = none →
        a ∉ ns ∧ a ∉ es) :=
  @C8_amended_no_raise_when_flights_are_strings false false 7 ⟨[], [], [], []⟩
    [⟨some "A", some (.str "UAL1"), none, none⟩, ⟨none, some (.str "UAL2"), none, none⟩]
    (by decide)

/-- C9: processing a snapshot holding a single previously-unseen id with a
non-empty (stripped) flight succeeds and inserts a record whose first_seen and
last_seen both equal the cycle's creation time now. -/
theorem C9_first_seen_equals_last_seen
    {lcdOn oledOn : Bool} {now : Nat} {st : MState} {a : AircraftEntry} {x f : String}
    (hx : a.hex = some x) (ht : truthyHex a = true)
    (hnew : st.hist.containsKey x = false)
    (hs : stripFlight a = .ok f) (hf : f ≠ "") :
    ∃ st' info,
      process_cycle lcdOn oledOn now st (some ⟨some [a]⟩) = .ok st' ∧
      History.lookup st'.hist x = some info ∧
      info.first_seen = now ∧ info.last_seen = now := by
  have hkey : hexKey a = x := by unfold hexKey; rw [hx]; rfl
  have hcl : classify_list st.hist [a] = .ok ([a], []) := by
    rw [classify_list]
    rw [if_neg (by rw [ht]; simp)]
    have hv : is_valid_aircraft a = .ok true := by
      unfold is_valid_aircraft
      rw [hs, except_bind_ok]
      have hfb : (f == "") = false := beq_false_of_ne hf
      rw [hfb]
      rfl
    rw [hv, except_bind_ok]
    rw [if_neg (by simp)]
    rw [show classify_list st.hist [] = .ok ([], []) from rfl, except_bind_ok]
    rw [hkey, hnew]
    simp only [Bool.false_eq_true, if_false]
    rfl
  have hfo : flightOkB a = true := (flightOk_of_stripFlight_ok hs).1
  obtain ⟨st', hp⟩ := process_ok_of_classify hcl
    (fun b hb => by rcases List.mem_singleton.mp hb with rfl; exact hfo)
  obtain ⟨h1, hc1, hh⟩ := cycle_shape hcl hp
  have hcr : create_all now st.hist [a] =
      .ok (st.hist.set x ⟨now, now, f, newPositions now a⟩) := by
    rw [create_all]
    have h1c : create_aircraft_info now st.hist a =
        .ok (st.hist.set x ⟨now, now, f, newPositions now a⟩) := by
      unfold create_aircraft_info
      rw [if_neg (by rw [ht]; simp), hs, except_bind_ok, hkey]
      rfl
    rw [h1c, except_bind_ok]
    rfl
  rw [hcr] at hc1
  injection hc1 with hc1
  subst hc1
  refine ⟨st', ⟨now, now, f, newPositions now a⟩, hp, ?_, rfl, rfl⟩
  rw [hh]
  have hnr : ((cleanup_old_aircrafts now
      (update_all now (st.hist.set x ⟨now, now, f, newPositions now a⟩) []) []).2).contains
        x = false := by
    cases hrc : ((cleanup_old_aircrafts now
        (update_all now (st.hist.set x ⟨now, now, f, newPositions now a⟩) []) []).2).contains x with
    | false => rfl
    | true =>
      exfalso
      obtain ⟨info, hpr, hstale⟩ :=
        (mem_cleanup_removed _ _ _ _).mp ((list_contains_iff _ _).mp hrc)
      rcases mem_set hpr with hin | ⟨_, hinfo⟩
      · have hcp := (containsKey_pair st.hist x).mpr ⟨info, hin⟩
        rw [hnew] at hcp
        cases hcp
      · obtain ⟨_, hlt⟩ := (staleTest_iff _ _ _).mp hstale
        rw [hinfo] at hlt
        simp at hlt
  rw [cleanup_lookup_of_not_removed hnr]
  exact set_lookup_self _ _ _

/-- C9 witness at id "A", flight "UAL1", time 7, empty roster. -/
theorem C9_witness :
    ∃ st' info,
      process_cycle false false 7 ⟨[], [], [], []⟩
          (some ⟨some [⟨some "A", some (.str "UAL1"), none, none⟩]⟩) = .ok st' ∧
      History.lookup st'.hist "A" = some info ∧
      info.first_seen = 7 ∧ info.last_seen = 7 :=
  @C9_first_seen_equals_last_seen false false 7 ⟨[], [], [], []⟩
    ⟨some "A", some (.str "UAL1"), none, none⟩ "A" "UAL1" rfl rfl rfl rfl (by decide)

/-- C10: on a snapshot whose (truthy) ids are pairwise distinct and whose
flight values are strings, the new-arrival list returned by the older
monitor.py check_for_new_aircraft equals — same elements, same order — the
new-aircraft component of monitor_service.py's classifier: both select exactly
the entries carrying an id, absent from the initial roster, with a non-empty
trimmed flight. -/
theorem C10_old_monitor_refines_service_classifier
    {now : Nat} {h : History} {l : List AircraftEntry}
    (hfl : ∀ a ∈ l, flightOkB a = true)
    (hnd : (l.filterMap truthyHexOf).Nodup) :
    (check_for_new_aircraft now h (some ⟨some l⟩)).map (fun p => p.1) =
      (get_new_and_existing_aircrafts h ⟨some l⟩).map (fun p => p.1) := by
  obtain ⟨h2, cur, hscan⟩ := check_scan_spec now h l h hfl hnd (fun x _ => rfl)
  have hch : check_for_new_aircraft now h (some ⟨some l⟩) =
      .ok (l.filter (isNewB h), cleanup_old_aircraft now h2 cur) := by
    simp only [check_for_new_aircraft]
    rw [hscan, except_bind_ok]
    rfl
  rw [hch, get_new_some, classify_eq_filter hfl]
  rfl

/-- C10 witness: both implementations report exactly ["A"] as new on a fresh
single-entry snapshot. -/
theorem C10_witness :
    (check_for_new_aircraft 7 []
        (some ⟨some [⟨some "A", some (.str "UAL1"), none, none⟩]⟩)).map (fun p => p.1) =
      (get_new_and_existing_aircrafts []
        ⟨some [⟨some "A", some (.str "UAL1"), none, none⟩]⟩).map (fun p => p.1) :=
  @C10_old_monitor_refines_service_classifier 7 []
    [⟨some "A", some (.str "UAL1"), none, none⟩] (by decide) (by decide)

end PiPlane
